import Mathlib

/-!
Verification development for the `quake` task runner (Go).

The Go sources are shallowly embedded: each Lean definition in the
`Quake` namespace mirrors one Go function or type of the repository
(`parser` package and `evaluator` package).  Effects of the host system
(shell execution, the process environment, `go run`) are modelled by an
explicit `Host` record of oracles, and the evaluator's mutable state
(`env` map, `taskArgs` slice) is threaded explicitly.  Executed commands
are recorded in an event trace.
-/

namespace Quake

/-! ## Go string primitives used by the sources -/

/-- `unicode.IsSpace` for the code points that can actually occur here
(Go additionally treats U+0085 and U+00A0 as space, included). -/
def goIsSpace (c : Char) : Bool :=
  c = ' ' || c = '\t' || c = '\n' || c = '\x0b' || c = '\x0c' || c = '\r' ||
  c = '\u0085' || c = ' '

/-- Drop leading characters satisfying `p` (helper for Go trims). -/
def dropWhileL (p : Char → Bool) : List Char → List Char
  | [] => []
  | c :: rest => if p c then dropWhileL p rest else c :: rest

/-- `strings.TrimSpace`: strip leading and trailing white space. -/
def goTrimSpace (s : String) : String :=
  let l := dropWhileL goIsSpace s.toList
  ⟨(dropWhileL goIsSpace l.reverse).reverse⟩

/-- `strings.TrimRight(s, cutset)` for an explicit cutset list. -/
def goTrimRight (s : String) (cutset : List Char) : String :=
  ⟨(dropWhileL (fun c => cutset.contains c) s.toList.reverse).reverse⟩

/-- `strings.Trim(s, cutset)` for a one-character cutset
(`strings.Trim(cmdStr, "\x60")` in `evaluateVariable`). -/
def goTrimChar (s : String) (c : Char) : String :=
  let l := dropWhileL (fun d => d = c) s.toList
  ⟨(dropWhileL (fun d => d = c) l.reverse).reverse⟩

/-- `strings.HasPrefix` (first argument the string, second the
prefix). -/
def startsWithL : List Char → List Char → Bool
  | _, [] => true
  | [], _ :: _ => false
  | c :: cs, p :: ps => c = p && startsWithL cs ps

/-- `strings.HasPrefix` on `String`. -/
def goHasPrefix (s pre : String) : Bool := startsWithL s.toList pre.toList

/-- `strings.Contains(s, string(c))` for a one-character needle. -/
def goContains (s : String) (c : Char) : Bool := s.toList.contains c

/-- `strings.Split` for a one-character separator (used with `":"`,
`"\n"` and `"."`). -/
def splitOnChar (sepc : Char) : List Char → List (List Char)
  | [] => [[]]
  | c :: rest =>
    let r := splitOnChar sepc rest
    if c = sepc then [] :: r
    else
      match r with
      | first :: others => (c :: first) :: others
      | [] => [[c]]

/-- `strings.Split` for a two-character separator (used with `"||"`). -/
def splitOnPairSep (a b : Char) : List Char → List (List Char)
  | [] => [[]]
  | [c] => [[c]]
  | c1 :: c2 :: rest =>
    if c1 = a ∧ c2 = b then [] :: splitOnPairSep a b rest
    else
      match splitOnPairSep a b (c2 :: rest) with
      | first :: others => (c1 :: first) :: others
      | [] => [[c1]]

/-- `strings.ReplaceAll` for a two-character pattern (all patterns used
by `evaluateVariable` have two characters): left-to-right,
non-overlapping. -/
def replacePair (p1 p2 : Char) (sub : List Char) : List Char → List Char
  | [] => []
  | [c] => [c]
  | c1 :: c2 :: rest =>
    if c1 = p1 ∧ c2 = p2 then sub ++ replacePair p1 p2 sub rest
    else c1 :: replacePair p1 p2 sub (c2 :: rest)

/-! ## AST (package `parser`)

Mirrors the current-state type definitions of the `parser` package:
`Expression` and `CommandElement` are Go interfaces with a closed set of
implementations, embedded as inductive types. -/

/-- Go `parser.Expression` interface: `Identifier`, `AccessId`,
`StringLiteral`, `Or`. -/
inductive Expression where
  | identifier (name : String)
  | accessId (object : Expression) (property : String)
  | stringLiteral (value : String)
  | or (left : Expression) (right : Expression)
deriving DecidableEq, Repr

/-- Go `parser.CommandElement` interface: `StringElement`,
`BacktickElement`, `ExpressionElement`, `VariableElement`. -/
inductive CommandElement where
  | stringElement (value : String)
  | backtickElement (command : String)
  | expressionElement (expression : Expression)
  | variableElement (name : String)
deriving DecidableEq, Repr

/-- Go `parser.Command`. -/
structure Command where
  elements : List CommandElement
  silent : Bool
  continueOnError : Bool
deriving DecidableEq, Repr

/-- A JSON document tree, the embedding of Go `encoding/json` values
(`json.Marshal` output and decoded `any` values; object fields keep the
marshaling order, lookups go by name). -/
inductive JsonVal where
  | str (s : String)
  | num (n : Int)
  | jbool (b : Bool)
  | null
  | arr (elems : List JsonVal)
  | obj (fields : List (String × JsonVal))

/-- The dynamic type of Go `parser.Variable.Value` (declared `any`):
a plain `string`, an `Expression`, a `BacktickElement`, or — after JSON
decoding — a generic decoded JSON value (Go `map[string]any` etc.). -/
inductive GoValue where
  | str (s : String)
  | expr (e : Expression)
  | backtickElem (command : String)
  | json (j : JsonVal)

/-- Go `parser.Variable`. -/
structure Variable where
  name : String
  value : GoValue
  isExpression : Bool
  commandSubstitution : Bool
  isMultiline : Bool

/-- Go `parser.Task`.  The `isGoTask`/`goDispatcher`/`goSourceDir`
fields are referenced by the evaluator (`executeGoTask`); the spec calls
such entries externally-sourced tasks carrying opaque dispatch metadata. -/
structure Task where
  name : String
  description : String
  arguments : List String
  dependencies : List String
  commands : List Command
  isGoTask : Bool
  goDispatcher : String
  goSourceDir : String
deriving DecidableEq, Repr

/-- Go `parser.Namespace` (recursive containment).  The Go field
`Variables` is rendered `vars` (`variables` is reserved in Lean). -/
inductive Namespace where
  | mk (name : String) (tasks : List Task) (vars : List Variable)
       (namespaces : List Namespace)

def Namespace.name : Namespace → String
  | .mk n _ _ _ => n

def Namespace.tasks : Namespace → List Task
  | .mk _ t _ _ => t

def Namespace.vars : Namespace → List Variable
  | .mk _ _ v _ => v

def Namespace.namespaces : Namespace → List Namespace
  | .mk _ _ _ ns => ns

/-- Go `parser.QuakeFile`.  The Go field `Variables` is rendered
`vars` (`variables` is reserved in Lean). -/
structure QuakeFile where
  tasks : List Task
  namespaces : List Namespace
  vars : List Variable
  fileNamespace : String

/-! ## Evaluator state and host oracles (package `evaluator`) -/

/-- The evaluator's Go map `env map[string]string`, embedded as an
association list with at most one binding per key (inserts replace). -/
def envLookup (env : List (String × String)) (k : String) : Option String :=
  match env with
  | [] => none
  | (a, b) :: rest => if a = k then some b else envLookup rest k

/-- Go map assignment `e.env[k] = v`. -/
def envInsert (env : List (String × String)) (k v : String) :
    List (String × String) :=
  match env with
  | [] => [(k, v)]
  | (a, b) :: rest => if a = k then (k, v) :: rest else (a, b) :: envInsert rest k v

/-- Mutable fields of Go `evaluator.Evaluator` (`env`, `taskArgs`). -/
structure EvalState where
  env : List (String × String)
  taskArgs : List String
deriving DecidableEq, Repr

/-- Oracles for the host system: the error of running `sh -c` with
inherited streams (`none` = success, `some msg` = the error text of the
failed run), `sh -c` captured output (`cmd.Output()`, `none` = the
command failed), `os.LookupEnv`, and the error of the `go run`
dispatcher invocation of `executeGoTask`. -/
structure Host where
  shellErr : String → Option String
  cmdOutput : String → Option String
  osEnv : String → Option String
  goRunErr : String → List String → Option String

/-- `os.Getenv` (empty string when unset). -/
def Host.getenv (h : Host) (k : String) : String := (h.osEnv k).getD ""

/-! ## Expression resolution (`expressionToString`, part_007 lines 452-493) -/

/-- Go `fmt.Sprint` applied to an expression node, as done by
`expressionToString` on `ex.Object`.  None of the expression structs
defines a `String()` method in the sources, so Go falls back to the
default `%v` struct formatting `\x7bfield1 field2 ...\x7d`. -/
def goSprint : Expression → String
  | .identifier name => "\x7b" ++ name ++ "\x7d"
  | .accessId object property => "\x7b" ++ goSprint object ++ " " ++ property ++ "\x7d"
  | .stringLiteral value => "\x7b" ++ value ++ "\x7d"
  | .or left right => "\x7b" ++ goSprint left ++ " " ++ goSprint right ++ "\x7d"

/-- Go `(*Evaluator).expressionToString`: resolve an expression to a
string against the evaluator environment and the host environment. -/
def expressionToString (h : Host) (env : List (String × String)) :
    Expression → String
  | .identifier name =>
    match envLookup env name with
    | some val => val
    | none =>
      match h.osEnv name with
      | some val => val
      | none => ""
  | .stringLiteral value => value
  | .accessId object property =>
    if goSprint object = "env" then
      match envLookup env property with
      | some val => val
      | none =>
        match h.osEnv property with
        | some val => val
        | none => ""
    else ""
  | .or left right =>
    let l := expressionToString h env left
    if l ≠ "" then l else expressionToString h env right

/-! ## Variable evaluation (`evaluateVariable`, part_007 lines 40-86) -/

/-- The character class accepted by `os.Expand` as a shell variable
name character (letters, digits, underscore). -/
def isShellNameChar (c : Char) : Bool :=
  ('a' ≤ c && c ≤ 'z') || ('A' ≤ c && c ≤ 'Z') || ('0' ≤ c && c ≤ '9') || c = '_'

/-- Take the longest prefix of shell-name characters. -/
def takeShellName : List Char → List Char × List Char
  | [] => ([], [])
  | c :: rest =>
    if isShellNameChar c then
      let (n, r) := takeShellName rest
      (c :: n, r)
    else ([], c :: rest)

/-- Scan to the closing brace of a `$\x7bNAME\x7d` reference. -/
def takeBraceName : List Char → Option (List Char × List Char)
  | [] => none
  | c :: rest =>
    if c = '}' then some ([], rest)
    else
      match takeBraceName rest with
      | some (n, r) => some (c :: n, r)
      | none => none

theorem takeShellName_snd_length (l : List Char) :
    (takeShellName l).2.length ≤ l.length := by
  induction l with
  | nil => simp [takeShellName]
  | cons c rest ih =>
    simp only [takeShellName]
    by_cases h : isShellNameChar c <;> simp [h]
    exact Nat.le_succ_of_le ih

theorem takeBraceName_some_length (l n r) (h : takeBraceName l = some (n, r)) :
    r.length < l.length := by
  induction l generalizing n r with
  | nil => simp [takeBraceName] at h
  | cons c rest ih =>
    simp only [takeBraceName] at h
    by_cases hc : c = '}'
    · simp [hc] at h
      simp [← h.2]
    · simp only [hc, if_false] at h
      cases hbn : takeBraceName rest with
      | none => simp [hbn] at h
      | some p =>
        obtain ⟨n2, r2⟩ := p
        simp [hbn] at h
        have := ih n2 r2 hbn
        simp [← h.2]
        omega

/-- Go `os.Expand` as used by `expandShellVariables`: expand
`$\x7bVAR\x7d` and `$VAR` using the given mapping, in the principal cases
(names of letters/digits/underscore; a `$` not introducing a name is
kept literally).  Structured with explicit fuel (each step consumes at
least one character, so fuel `s.length` is sufficient). -/
def goExpandF (mapping : String → String) : Nat → List Char → List Char
  | 0, s => s
  | _ + 1, [] => []
  | fuel + 1, '$' :: '{' :: rest2 =>
    match takeBraceName rest2 with
    | some (n, r) => (mapping ⟨n⟩).toList ++ goExpandF mapping fuel r
    | none => '$' :: '{' :: goExpandF mapping fuel rest2
  | fuel + 1, '$' :: rest =>
    if (takeShellName rest).1.isEmpty then '$' :: goExpandF mapping fuel rest
    else
      (mapping ⟨(takeShellName rest).1⟩).toList ++
        goExpandF mapping fuel (takeShellName rest).2
  | fuel + 1, c :: rest => c :: goExpandF mapping fuel rest

/-- Go `(*Evaluator).expandShellVariables`: `os.Expand` with evaluator
environment first, host environment second. -/
def expandShellVariables (h : Host) (env : List (String × String)) (s : String) :
    String :=
  ⟨goExpandF (fun key =>
      match envLookup env key with
      | some val => val
      | none => h.getenv key) s.toList.length s.toList⟩

/-- Go `(*Evaluator).evaluateVariable`: command substitution via the
shell (failures silently become the empty string, success is trimmed),
expression values via `expressionToString`, plain strings unquoted,
unescaped and shell-expanded. -/
def evaluateVariable (h : Host) (env : List (String × String))
    (v : Variable) : String :=
  if v.commandSubstitution then
    match v.value with
    | .str cmdStr =>
      let cmdStr := goTrimChar cmdStr '\x60'
      match h.cmdOutput cmdStr with
      | none => ""
      | some output => goTrimSpace output
    | _ => ""
  else if v.isExpression then
    match v.value with
    | .expr e => expressionToString h env e
    | _ => ""
  else
    match v.value with
    | .str str =>
      let str := goTrimSpace str
      let str :=
        if str.length ≥ 2 && str.toList.head? = some '"' &&
            str.toList.getLast? = some '"' then
          let inner := (str.toList.drop 1).dropLast
          let inner := replacePair '\\' '"' ['"'] inner
          let inner := replacePair '\\' '\\' ['\\'] inner
          let inner := replacePair '\\' 'n' ['\n'] inner
          (⟨replacePair '\\' 't' ['\t'] inner⟩ : String)
        else str
      expandShellVariables h env str
    | _ => ""

example : goTrimSpace "  a b\t\n" = "a b" := by decide

example :
    expressionToString ⟨fun _ => none, fun _ => none, fun _ => none, fun _ _ => none⟩
      [] (.or (.identifier "missing") (.stringLiteral "default")) = "default" := by
  decide

/-! ## Command execution (part_007 lines 233-345, 420-450) -/

/-- Observable events of an evaluator run: a shell execution
(`sh -c cmd` with inherited streams), a natively handled `@echo`
command, the continue-on-error warning, and a `go run` dispatcher
invocation. -/
inductive Event where
  | shell (cmd : String)
  | echoNative
  | warn (msg : String)
  | goRun (name : String) (args : List String)
deriving DecidableEq, Repr

/-- Go `(*Evaluator).commandToString`: render the command elements to
the shell string. -/
def commandToString (h : Host) (env : List (String × String))
    (cmd : Command) : String :=
  String.join (cmd.elements.map fun elem =>
    match elem with
    | .stringElement v => v
    | .variableElement n =>
      match envLookup env n with
      | some val => val
      | none =>
        match h.osEnv n with
        | some val => val
        | none => "$" ++ n
    | .backtickElement c => "`" ++ c ++ "`"
    | .expressionElement e => expressionToString h env e)

/-- Go `(*Evaluator).isEchoCommand`. -/
def isEchoCommand (cmd : Command) : Bool :=
  match cmd.elements with
  | [] => false
  | first :: _ =>
    match first with
    | .stringElement s =>
      let trimmed := goTrimSpace s
      trimmed = "echo" || goHasPrefix trimmed "echo "
    | _ => false

/-- Go `(*Evaluator).executeNativeEcho`: prints via `fmt.Printf` only
(never the shell) and always returns `nil`; the printed text is
cosmetic output and is not modelled beyond the event. -/
def executeNativeEcho (_cmd : Command) : Except String Unit × List Event :=
  (Except.ok (), [Event.echoNative])

/-- Go `(*Evaluator).executeCommandWithPosition`: a silent `echo` goes
through the native printer, everything else is rendered and run via
`sh -c`; `isLast` only selects the cosmetic echo prefix. -/
def executeCommandWithPosition (h : Host) (env : List (String × String))
    (cmd : Command) (_isLast : Bool) : Except String Unit × List Event :=
  if cmd.silent && isEchoCommand cmd then
    executeNativeEcho cmd
  else
    let cmdStr := commandToString h env cmd
    match h.shellErr cmdStr with
    | none => (Except.ok (), [Event.shell cmdStr])
    | some e => (Except.error ("command failed: " ++ e), [Event.shell cmdStr])

/-- Loop body of Go `(*Evaluator).executeTask`: run the commands in
order; a failure aborts unless the command's ContinueOnError is set, in
which case it is downgraded to a warning. -/
def executeCommands (h : Host) (env : List (String × String)) :
    List Command → Except String Unit × List Event
  | [] => (Except.ok (), [])
  | cmd :: rest =>
    let (r, evs) := executeCommandWithPosition h env cmd rest.isEmpty
    match r with
    | .ok _ =>
      let (r2, evs2) := executeCommands h env rest
      (r2, evs ++ evs2)
    | .error e =>
      if !cmd.continueOnError then (Except.error e, evs)
      else
        let (r2, evs2) := executeCommands h env rest
        (r2, evs ++ [Event.warn ("Warning: command failed but continuing: " ++ e)] ++ evs2)

/-- Go `(*Evaluator).executeGoTask`: delegate a Go task to
`go run <dir> taskname args...`, using the current `taskArgs`. -/
def executeGoTask (h : Host) (st : EvalState) (task : Task) :
    Except String Unit × List Event :=
  if task.goDispatcher = "" then
    (Except.error ("Go task \x27" ++ task.name ++ "\x27 has no dispatcher"), [])
  else if task.goSourceDir = "" then
    (Except.error ("Go task \x27" ++ task.name ++ "\x27 has no source directory"), [])
  else
    match h.goRunErr task.name st.taskArgs with
    | none => (Except.ok (), [Event.goRun task.name st.taskArgs])
    | some e => (Except.error ("Go task failed: " ++ e), [Event.goRun task.name st.taskArgs])

/-- Go `(*Evaluator).executeTask`: Go tasks are delegated, everything
else runs its commands in order. -/
def executeTask (h : Host) (st : EvalState) (task : Task) :
    Except String Unit × List Event :=
  if task.isGoTask then executeGoTask h st task
  else executeCommands h st.env task.commands

/-! ## Task resolution (`findTask`, `findNamespacedTask`,
part_007 lines 139-181) -/

/-- The flat scan over the top-level task list (first loop of
`findTask`): first match in list order. -/
def findTaskFlat : List Task → String → Option Task
  | [], _ => none
  | t :: rest, name => if t.name = name then some t else findTaskFlat rest name

/-- Go `(*Evaluator).findNamespacedTask`: walk the namespace list for
the first segment; with exactly two segments look the task up in the
matching namespace (continuing the scan when absent), with more than
two recurse into that namespace's children and return the result
unconditionally. -/
def findNamespacedTask : List String → List Namespace → Option Task
  | _, [] => none
  | [], _ :: _ => none
  | p0 :: restParts, ns :: rest =>
    if ns.name = p0 then
      match restParts with
      | [p1] =>
        match findTaskFlat ns.tasks p1 with
        | some t => some t
        | none => findNamespacedTask [p0, p1] rest
      | q :: q2 :: qs => findNamespacedTask (q :: q2 :: qs) ns.namespaces
      | [] => findNamespacedTask [p0] rest
    else findNamespacedTask (p0 :: restParts) rest
termination_by parts nss => (parts.length, nss.length)

/-- Go `(*Evaluator).findTask`: flat top-level lookup first; only when
that fails and the name contains a colon, split on `:` and walk the
namespace tree. -/
def findTask (qf : QuakeFile) (name : String) : Option Task :=
  match findTaskFlat qf.tasks name with
  | some t => some t
  | none =>
    if goContains name ':' then
      findNamespacedTask ((splitOnChar ':' name.toList).map (⟨·⟩)) qf.namespaces
    else none

/-! ## Task invocation (`RunTaskWithArgs`, part_007 lines 88-137) -/

/-- Argument-binding loop of `RunTaskWithArgs`: bind the declared
argument names positionally, the names beyond the supplied values to
the empty string. -/
def bindArgs : List String → List String → List (String × String) →
    List (String × String)
  | [], _, env => env
  | argName :: restNames, args, env =>
    bindArgs restNames args.tail (envInsert env argName (args.headD ""))

/-- Dependency loop of `RunTaskWithArgs`, parameterized over the
recursive invocation: invoke each dependency with no arguments,
wrapping the first failure with the dependency name. -/
def runDepsWith
    (run : String → EvalState → Except String Unit × EvalState × List Event) :
    List String → EvalState → Except String Unit × EvalState × List Event
  | [], st => (Except.ok (), st, [])
  | dep :: rest, st =>
    match run dep st with
    | (Except.error e, st2, evs) =>
      (Except.error ("dependency \x27" ++ dep ++ "\x27 failed: " ++ e), st2, evs)
    | (Except.ok _, st2, evs) =>
      let (r, st3, evs2) := runDepsWith run rest st2
      (r, st3, evs ++ evs2)

/-- Go `(*Evaluator).RunTaskWithArgs`.  `fuel` bounds the recursion
depth (Go recurses unboundedly; a dependency cycle exhausts the stack
there and the fuel here).  Returns the result, the final evaluator
state, and the event trace. -/
def runTaskWithArgs (h : Host) (qf : QuakeFile) :
    Nat → String → List String → EvalState →
    Except String Unit × EvalState × List Event
  | 0, _, _, st => (Except.error "recursion limit exceeded", st, [])
  | fuel + 1, taskName, args, st =>
    let taskName := if taskName = "" then "default" else taskName
    match findTask qf taskName with
    | none => (Except.error ("task \x27" ++ taskName ++ "\x27 not found"), st, [])
    | some task =>
      let oldArgs := st.taskArgs
      let st1 : EvalState := ⟨bindArgs task.arguments args st.env, args⟩
      match runDepsWith (fun dep st2 => runTaskWithArgs h qf fuel dep [] st2)
          task.dependencies st1 with
      | (Except.error e, st2, evs) =>
        (Except.error e, { st2 with taskArgs := oldArgs }, evs)
      | (Except.ok _, st2, evs) =>
        let (r, evs2) := executeTask h st2 task
        (r, { st2 with taskArgs := oldArgs }, evs ++ evs2)

/-- Go `(*Evaluator).RunTask`: run a task with no arguments. -/
def runTask (h : Host) (qf : QuakeFile) (fuel : Nat) (taskName : String)
    (st : EvalState) : Except String Unit × EvalState × List Event :=
  runTaskWithArgs h qf fuel taskName [] st

/-- Go `(*Evaluator).loadGlobalVariables` (called from `New`): evaluate
the top-level variables in declaration order into the environment. -/
def loadGlobalVariables (h : Host) (qf : QuakeFile) : List (String × String) :=
  qf.vars.foldl (fun env v => envInsert env v.name (evaluateVariable h env v)) []

/-- Go `evaluator.New`: fresh state with the global variables loaded. -/
def evaluatorNew (h : Host) (qf : QuakeFile) : EvalState :=
  ⟨loadGlobalVariables h qf, []⟩

/-! ## Balanced-brace content scanning (part_004, `Grammar.init`
lines 1214-1246): the PEG rule

`Star(Or(doubleQuotedSpan, singleQuotedSpan, Seq("\x7b", balanced, "\x7d"),
Seq(Not("\x7d"), Any)))`

embedded as a deterministic scanner over character lists.  Each function
returns the unconsumed suffix. -/

/-- Inner star of a quoted-span alternative:
`Star(Or(S(escaped quote), S(escaped backslash), Seq(Not(quote), Any)))`.
Stops (without consuming) at an unescaped closing quote or at end of
input.  Fuel-structured; each step consumes at least one character, so
fuel `s.length` is sufficient (the fuel-0 result is never reached with
that budget). -/
def quoteSpanInnerF (q : Char) : Nat → List Char → List Char
  | 0, s => s
  | _ + 1, [] => []
  | fuel + 1, c :: rest =>
    if c = q then c :: rest
    else if c = '\\' ∧ (rest.head? = some q ∨ rest.head? = some '\\') then
      quoteSpanInnerF q fuel rest.tail
    else quoteSpanInnerF q fuel rest

/-- One quoted-span alternative: opening quote, inner star, closing
quote; `none` when the alternative fails (PEG backtracks). -/
def matchQuoteSpan (q : Char) (s : List Char) : Option (List Char) :=
  match s with
  | c :: rest =>
    if c = q then
      match quoteSpanInnerF q rest.length rest with
      | c2 :: rest2 => if c2 = q then some rest2 else none
      | [] => none
    else none
  | [] => none

/-- The balanced-content star with explicit fuel (each iteration
consumes at least one character, so fuel `s.length` is exact).  On a
failed nested-brace alternative the PEG backtracks and consumes the
`\x7b` as an ordinary character; scanning then continues from the same
position, which yields the same suffix the failed attempt computed. -/
def balancedRestF : Nat → List Char → List Char
  | 0, s => s
  | fuel + 1, s =>
    match matchQuoteSpan '"' s with
    | some rest => balancedRestF fuel rest
    | none =>
      match matchQuoteSpan '\x27' s with
      | some rest => balancedRestF fuel rest
      | none =>
        match s with
        | [] => []
        | c :: s1 =>
          if c = '{' then
            match balancedRestF fuel s1 with
            | '}' :: s2 => balancedRestF fuel s2
            | r => r
          else if c = '}' then c :: s1
          else balancedRestF fuel s1

/-- The unconsumed suffix after scanning balanced-brace content. -/
def balancedRestOf (s : List Char) : List Char := balancedRestF s.length s

/-! ## Command-element grammar and `parseCommands`
(part_004 lines 1676-1778 and 1804-1855) -/

/-- Word characters of the grammar (`Range(a,z)`, `Range(A,Z)`,
`Range(0,9)`, `_`). -/
def isWordChar (c : Char) : Bool :=
  ('a' ≤ c && c ≤ 'z') || ('A' ≤ c && c ≤ 'Z') || ('0' ≤ c && c ≤ '9') || c = '_'

/-- `Plus`/`Star` of word characters: longest word-character prefix. -/
def takeWordChars : List Char → List Char × List Char
  | [] => ([], [])
  | c :: rest =>
    if isWordChar c then
      let (n, r) := takeWordChars rest
      (c :: n, r)
    else ([], c :: rest)

/-- `Star(Seq(Not(S(closer)), Any))` followed by `S(closer)` for a
one-character closer (the backtick rule): the text before the first
closer and the suffix after it, `none` when the closer is absent. -/
def scanUntilChar (closer : Char) : List Char → Option (List Char × List Char)
  | [] => none
  | c :: rest =>
    if c = closer then some ([], rest)
    else
      match scanUntilChar closer rest with
      | some (pre, post) => some (c :: pre, post)
      | none => none

/-- `Star(Seq(Not(S(two-char closer)), Any))` followed by the closer
(the `\x7d\x7d` of the expression rule). -/
def scanUntilPair (a b : Char) : List Char → Option (List Char × List Char)
  | [] => none
  | [_] => none
  | c1 :: c2 :: rest =>
    if c1 = a ∧ c2 = b then some ([], rest)
    else
      match scanUntilPair a b (c2 :: rest) with
      | some (pre, post) => some (c1 :: pre, post)
      | none => none

/-- Modelled from the spec: the expression parser (rule `expr` of the
grammar) is exercised by the repository's tests but its source is not
under `src/`.  Spec grammar: `expr := IDENT (. IDENT)? | quoted string
| expr-or-expr`, whitespace-insensitive, an unparseable interior
degrades to a literal.  `Or` chains associate to the right here. -/
def parseExprAtom (s : String) : Expression :=
  let t := goTrimSpace s
  if t.length ≥ 2 && t.toList.head? = some '"' && t.toList.getLast? = some '"' then
    .stringLiteral ⟨(t.toList.drop 1).dropLast⟩
  else
    match splitOnChar '.' t.toList with
    | [a, b] => .accessId (.identifier ⟨a⟩) ⟨b⟩
    | _ => .identifier t

/-- Modelled from the spec: fold a `||`-separated chain into nested
`Or` nodes (see `parseExprAtom`). -/
def parseExprOrChain : List String → Expression
  | [] => .identifier ""
  | [a] => parseExprAtom a
  | a :: rest => .or (parseExprAtom a) (parseExprOrChain rest)

/-- Modelled from the spec: parse the interior text of a
`\x7b\x7bexpr\x7d\x7d` span (see `parseExprAtom`). -/
def parseExpressionString (s : String) : Expression :=
  parseExprOrChain ((splitOnPairSep '|' '|' s.toList).map (⟨·⟩))

/-- One `commandElement` alternative of the grammar, in rule order:
expression span, backtick span, variable reference, plain text.  Plain
text consumes characters up to the next `$`, `\x60`, newline,
`\x7b\x7b` or end of input and must be non-empty. -/
def takePlainText : List Char → List Char × List Char
  | [] => ([], [])
  | c :: rest =>
    if c = '$' ∨ c = '\x60' ∨ c = '\n' then ([], c :: rest)
    else if c = '{' ∧ rest.head? = some '{' then ([], c :: rest)
    else
      let (t, r) := takePlainText rest
      (c :: t, r)

/-- Try the four `commandElement` alternatives at the current position;
`none` when all fail (the `Many` loop then stops). -/
def parseCommandElement (s : List Char) : Option (CommandElement × List Char) :=
  match s with
  | '{' :: '{' :: rest =>
    match scanUntilPair '}' '}' rest with
    | some (pre, post) => some (.expressionElement (parseExpressionString ⟨pre⟩), post)
    | none => none
  | '\x60' :: rest =>
    match scanUntilChar '\x60' rest with
    | some (pre, post) => some (.backtickElement ⟨pre⟩, post)
    | none => none
  | '$' :: rest =>
    match takeWordChars rest with
    | ([], _) => none
    | (n, r) => some (.variableElement ⟨n⟩, r)
  | _ =>
    match takePlainText s with
    | ([], _) => none
    | (t, r) => some (.stringElement ⟨t⟩, r)

/-- The `Many(commandElement, 0, -1)` loop with explicit fuel (each
element consumes at least one character, so fuel `s.length` is exact). -/
def parseCommandElementsF : Nat → List Char → List CommandElement
  | 0, _ => []
  | fuel + 1, s =>
    match parseCommandElement s with
    | none => []
    | some (e, r) => e :: parseCommandElementsF fuel r

/-- Parse one command line with `grammar.commandElements` (the
`parser.Parse(grammar.commandElements, trimmedLine, ...)` call inside
`parseCommands`).  The `Many` rule always matches, possibly consuming
only a prefix, so the parse-failed fallback branch of the Go code is
not reachable. -/
def parseCommandElements (s : String) : List CommandElement :=
  parseCommandElementsF s.toList.length s.toList

/-- Per-line body of Go `parseCommands` (part_004 lines 1810-1853):
trim trailing blanks, skip blank lines, strip an `@` or `-` modifier
from the whitespace-trimmed text, and parse the remainder. -/
def parseCommandLine (line : String) : Option Command :=
  let line := goTrimRight line [' ', '\t', '\r']
  if line = "" then none
  else
    let trimmedLine := goTrimSpace line
    let (silent, continueOnError, stripped) :=
      if goHasPrefix trimmedLine "@" then
        (true, false, goTrimSpace ⟨trimmedLine.toList.drop 1⟩)
      else if goHasPrefix trimmedLine "-" then
        (false, true, goTrimSpace ⟨trimmedLine.toList.drop 1⟩)
      else (false, false, trimmedLine)
    some ⟨parseCommandElements stripped, silent, continueOnError⟩

/-- The line loop of Go `parseCommands`. -/
def parseCommandsLines : List String → List Command
  | [] => []
  | line :: rest =>
    match parseCommandLine line with
    | none => parseCommandsLines rest
    | some cmd => cmd :: parseCommandsLines rest

/-- Go `parseCommands` (part_004 lines 1804-1855): split the task-body
content into physical lines and parse each. -/
def parseCommands (content : String) : List Command :=
  parseCommandsLines ((splitOnChar '\n' content.toList).map (⟨·⟩))

example :
    parseCommands "    echo \"Hello, World!\"" =
      [⟨[.stringElement "echo \"Hello, World!\""], false, false⟩] := by
  decide

example : balancedRestOf "echo \"a \x7d b\"\n\x7d".toList = ['}'] := by decide

/-! ## Shared fixtures for concrete witnesses -/

/-- A host on which every shell command succeeds, no captured output is
available, and the host environment is empty. -/
def hostNone : Host := ⟨fun _ => none, fun _ => none, fun _ => none, fun _ _ => none⟩

/-! ## Claim theorems -/

/-- Heads of `fmt.Sprint` renderings: every expression struct prints as
`\x7b...\x7d`, so the rendering never equals a bare identifier text. -/
theorem goSprint_head (e : Expression) : (goSprint e).data.head? = some '{' := by
  have hb : ("\x7b" : String).data = ['{'] := rfl
  cases e <;> simp [goSprint, String.data_append, hb]

/-- The `case "env"` of `expressionToString` compares `fmt.Sprint` of a
struct (which always starts with a brace) against `"env"`, so the
comparison never succeeds. -/
theorem goSprint_ne_env (e : Expression) : goSprint e ≠ "env" := by
  intro h
  have hd := goSprint_head e
  rw [h] at hd
  simp [show ("env" : String).data = ['e', 'n', 'v'] from rfl] at hd

/-- C5: For every `Or\x7bleft, right\x7d`, expression resolution returns the
resolved string of `left` whenever that string is non-empty and
otherwise the resolved string of `right`; in particular
`\x7b\x7b missing || "default" \x7d\x7d` with `missing` unbound resolves to
`"default"`, and `\x7b\x7b present || "default" \x7d\x7d` with `present` bound to
`"value"` resolves to `"value"`. -/
theorem C5_or_expression_resolution :
    (∀ (h : Host) (env : List (String × String)) (l r : Expression),
        expressionToString h env (.or l r) =
          if expressionToString h env l ≠ "" then expressionToString h env l
          else expressionToString h env r) ∧
    (∀ (h : Host) (env : List (String × String)),
        envLookup env "missing" = none → h.osEnv "missing" = none →
        expressionToString h env
          (.or (.identifier "missing") (.stringLiteral "default")) = "default") ∧
    (∀ (h : Host) (env : List (String × String)),
        envLookup env "present" = some "value" →
        expressionToString h env
          (.or (.identifier "present") (.stringLiteral "default")) = "value") := by
  refine ⟨fun h env l r => rfl, fun h env h1 h2 => ?_, fun h env h1 => ?_⟩
  · simp [expressionToString, h1, h2]
  · simp [expressionToString, h1]

/-- Witness for C5 at concrete inputs. -/
theorem C5_or_expression_resolution_witness :
    expressionToString hostNone []
      (.or (.identifier "missing") (.stringLiteral "default")) = "default" ∧
    expressionToString hostNone [("present", "value")]
      (.or (.identifier "present") (.stringLiteral "default")) = "value" :=
  ⟨C5_or_expression_resolution.2.1 hostNone [] (by decide) rfl,
   C5_or_expression_resolution.2.2 hostNone [("present", "value")] (by decide)⟩

/-- C6: Expression resolution never produces an error: an `Identifier`
bound in neither environment resolves to the empty string, and an
`AccessId` whose object is not the identifier `env` — or whose `env.NAME`
property is unbound in both environments — resolves to the empty string
rather than failing (the resolver is total by type). -/
theorem C6_resolution_miss_is_empty :
    (∀ (h : Host) (env : List (String × String)) (name : String),
        envLookup env name = none → h.osEnv name = none →
        expressionToString h env (.identifier name) = "") ∧
    (∀ (h : Host) (env : List (String × String)) (object : Expression)
        (property : String),
        object ≠ .identifier "env" ∨
          (envLookup env property = none ∧ h.osEnv property = none) →
        expressionToString h env (.accessId object property) = "") := by
  constructor
  · intro h env name h1 h2
    simp [expressionToString, h1, h2]
  · intro h env object property _
    simp [expressionToString, goSprint_ne_env object]

/-- Witness for C6 at concrete inputs. -/
theorem C6_resolution_miss_is_empty_witness :
    expressionToString hostNone [] (.identifier "missing") = "" ∧
    expressionToString hostNone [("API_KEY", "k")]
      (.accessId (.identifier "env") "OTHER") = "" ∧
    expressionToString hostNone [] (.accessId (.identifier "cfg") "field") = "" :=
  ⟨C6_resolution_miss_is_empty.1 hostNone [] "missing" (by decide) rfl,
   C6_resolution_miss_is_empty.2 hostNone [("API_KEY", "k")] (.identifier "env")
      "OTHER" (Or.inr ⟨by decide, rfl⟩),
   C6_resolution_miss_is_empty.2 hostNone [] (.identifier "cfg") "field"
      (Or.inl (by decide))⟩

/-- C10: A command-substitution (backtick) variable whose shell command
fails evaluates to the empty string with the error swallowed; on
success its value is the captured output with surrounding whitespace
trimmed.  The backticks are stripped from the stored command text
before execution, and `loadGlobalVariables` records exactly this value
during evaluator initialization. -/
theorem C10_backtick_variable_evaluation (h : Host)
    (env : List (String × String)) (v : Variable) (cmdStr : String)
    (hsub : v.commandSubstitution = true) (hval : v.value = .str cmdStr) :
    (h.cmdOutput (goTrimChar cmdStr '\x60') = none →
        evaluateVariable h env v = "") ∧
    (∀ out, h.cmdOutput (goTrimChar cmdStr '\x60') = some out →
        evaluateVariable h env v = goTrimSpace out) ∧
    (∀ qf : QuakeFile, qf.vars = [v] →
        envLookup (loadGlobalVariables h qf) v.name =
          some (evaluateVariable h [] v)) := by
  refine ⟨fun hout => ?_, fun out hout => ?_, fun qf hqf => ?_⟩
  · simp [evaluateVariable, hsub, hval, hout]
  · simp [evaluateVariable, hsub, hval, hout]
  · simp [loadGlobalVariables, hqf, envInsert, envLookup]

/-- A host for the C10 witness: `date` produces padded output, every
other captured command fails. -/
def hostC10 : Host :=
  ⟨fun _ => none,
   fun c => if c = "date" then some "  2024-06-01\n" else none,
   fun _ => none, fun _ _ => none⟩

/-- Witness for C10 at concrete inputs: a failing backtick variable
yields `""`, a succeeding one yields the trimmed output. -/
theorem C10_backtick_variable_evaluation_witness :
    evaluateVariable hostC10 [] ⟨"bad", .str "\x60boom\x60", false, true, false⟩ = "" ∧
    evaluateVariable hostC10 [] ⟨"today", .str "\x60date\x60", false, true, false⟩ =
      "2024-06-01" :=
  ⟨(C10_backtick_variable_evaluation hostC10 [] _ "\x60boom\x60" rfl rfl).1 (by decide),
   ((C10_backtick_variable_evaluation hostC10 [] _ "\x60date\x60" rfl rfl).2.1
      "  2024-06-01\n" (by decide)).trans (by decide)⟩

/-- The flat scan returns the first task in list order whose name
matches. -/
theorem findTaskFlat_first :
    ∀ (l : List Task) (n : String) (i : Nat) (t : Task),
      l.get? i = some t → t.name = n →
      (∀ j, j < i → ∀ u, l.get? j = some u → u.name ≠ n) →
      findTaskFlat l n = some t := by
  intro l
  induction l with
  | nil => intro n i t h _ _; simp at h
  | cons a rest ih =>
    intro n i t hget hname hbefore
    cases i with
    | zero =>
      simp at hget
      subst hget
      simp [findTaskFlat, hname]
    | succ k =>
      have ha : a.name ≠ n := hbefore 0 (Nat.succ_pos k) a rfl
      simp only [findTaskFlat, ha, if_false]
      exact ih n k t (by simpa using hget) hname
        (fun j hj u hu => hbefore (j + 1) (by omega) u (by simpa using hu))

/-- The flat scan fails when no task in the list has the name. -/
theorem findTaskFlat_none :
    ∀ (l : List Task) (n : String), (∀ u ∈ l, u.name ≠ n) →
      findTaskFlat l n = none := by
  intro l
  induction l with
  | nil => intro n _; rfl
  | cons a rest ih =>
    intro n hall
    have ha : a.name ≠ n := hall a (by simp)
    simp only [findTaskFlat, ha, if_false]
    exact ih n (fun u hu => hall u (by simp [hu]))

/-- The namespace walk fails when no namespace matches the first
segment. -/
theorem findNamespacedTask_head_miss :
    ∀ (nss : List Namespace) (p : String) (parts : List String),
      (∀ ns ∈ nss, ns.name ≠ p) →
      findNamespacedTask (p :: parts) nss = none := by
  intro nss
  induction nss with
  | nil => intro p parts _; simp [findNamespacedTask]
  | cons ns rest ih =>
    intro p parts hall
    have h1 : ns.name ≠ p := hall ns (by simp)
    have hrest := ih p parts (fun u hu => hall u (by simp [hu]))
    cases parts with
    | nil => simpa [findNamespacedTask, h1] using hrest
    | cons q qs =>
      cases qs with
      | nil => simpa [findNamespacedTask, h1] using hrest
      | cons q2 qs2 => simpa [findNamespacedTask, h1] using hrest

/-- C4: The empty requested name is replaced by `"default"`; resolution
scans the flat top-level task list in list order and returns the first
name match (an earlier duplicate shadows a later one); only when no
flat match exists and the name contains a colon is the name split on
`:` and resolved through the namespace tree; resolution yields the
task-not-found error when the flat scan misses and the name has no
colon, or when the namespace walk misses its first segment. -/
theorem C4_task_resolution :
    (∀ (h : Host) (qf : QuakeFile) (fuel : Nat) (args : List String)
        (st : EvalState),
        runTaskWithArgs h qf (fuel + 1) "" args st =
          runTaskWithArgs h qf (fuel + 1) "default" args st) ∧
    (∀ (qf : QuakeFile) (n : String) (i : Nat) (t : Task),
        qf.tasks.get? i = some t → t.name = n →
        (∀ j, j < i → ∀ u, qf.tasks.get? j = some u → u.name ≠ n) →
        findTask qf n = some t) ∧
    (∀ (qf : QuakeFile) (n : String),
        (∀ u ∈ qf.tasks, u.name ≠ n) → goContains n ':' = true →
        findTask qf n =
          findNamespacedTask ((splitOnChar ':' n.toList).map (⟨·⟩))
            qf.namespaces) ∧
    (∀ (qf : QuakeFile) (n : String),
        (∀ u ∈ qf.tasks, u.name ≠ n) → goContains n ':' = false →
        findTask qf n = none) ∧
    (∀ (p : String) (parts : List String) (nss : List Namespace),
        (∀ ns ∈ nss, ns.name ≠ p) →
        findNamespacedTask (p :: parts) nss = none) ∧
    (∀ (h : Host) (qf : QuakeFile) (fuel : Nat) (n : String)
        (args : List String) (st : EvalState),
        n ≠ "" → findTask qf n = none →
        runTaskWithArgs h qf (fuel + 1) n args st =
          (Except.error ("task \x27" ++ n ++ "\x27 not found"), st, [])) := by
  refine ⟨fun h qf fuel args st => rfl,
    fun qf n i t h1 h2 h3 => ?_,
    fun qf n hall hcol => ?_,
    fun qf n hall hcol => ?_,
    fun p parts nss hall => findNamespacedTask_head_miss nss p parts hall,
    fun h qf fuel n args st hne hfind => ?_⟩
  · simp [findTask, findTaskFlat_first qf.tasks n i t h1 h2 h3]
  · simp [findTask, findTaskFlat_none qf.tasks n hall, hcol]
  · simp [findTask, findTaskFlat_none qf.tasks n hall, hcol]
  · simp [runTaskWithArgs, hne, hfind]

/-- Fixture for the C4 witness: two top-level tasks with the duplicate
name `a`, and a `db` namespace holding `migrate`. -/
def taskA0 : Task :=
  ⟨"a", "", [], [], [⟨[.stringElement "echo first"], false, false⟩], false, "", ""⟩

/-- The shadowed later duplicate of `a`. -/
def taskA1 : Task := ⟨"a", "", [], [], [], false, "", ""⟩

/-- The namespaced task `db:migrate`. -/
def taskMig : Task := ⟨"migrate", "", [], [], [], false, "", ""⟩

/-- The C4 fixture file. -/
def qfC4 : QuakeFile :=
  ⟨[taskA0, taskA1], [.mk "db" [taskMig] [] []], [], ""⟩

/-- Witness for C4 at concrete inputs: the earlier duplicate wins, the
colon fallback is taken exactly when the flat scan misses, an unknown
name yields the not-found error. -/
theorem C4_task_resolution_witness :
    findTask qfC4 "a" = some taskA0 ∧
    findTask qfC4 "db:migrate" =
      findNamespacedTask ((splitOnChar ':' "db:migrate".toList).map (⟨·⟩))
        qfC4.namespaces ∧
    findTask qfC4 "zzz" = none ∧
    findNamespacedTask ["web", "x"] qfC4.namespaces = none ∧
    runTaskWithArgs hostNone qfC4 1 "zzz" [] ⟨[], []⟩ =
      (Except.error "task \x27zzz\x27 not found", ⟨[], []⟩, []) :=
  ⟨C4_task_resolution.2.1 qfC4 "a" 0 taskA0 rfl rfl
      (fun j hj => absurd hj (Nat.not_lt_zero j)),
   C4_task_resolution.2.2.1 qfC4 "db:migrate" (by decide) (by decide),
   C4_task_resolution.2.2.2.1 qfC4 "zzz" (by decide) (by decide),
   C4_task_resolution.2.2.2.2.1 "web" ["x"] qfC4.namespaces (by decide),
   C4_task_resolution.2.2.2.2.2 hostNone qfC4 0 "zzz" [] ⟨[], []⟩ (by decide)
     (C4_task_resolution.2.2.2.1 qfC4 "zzz" (by decide) (by decide))⟩

/-- Looking up the just-inserted key. -/
theorem envLookup_envInsert_self (env : List (String × String)) (k v : String) :
    envLookup (envInsert env k v) k = some v := by
  induction env with
  | nil => simp [envInsert, envLookup]
  | cons p rest ih =>
    obtain ⟨a, b⟩ := p
    by_cases h : a = k <;> simp [envInsert, envLookup, h, ih]

/-- Inserting one key leaves other lookups unchanged. -/
theorem envLookup_envInsert_other (env : List (String × String)) (k k2 v : String)
    (h : k2 ≠ k) : envLookup (envInsert env k v) k2 = envLookup env k2 := by
  have h2 : k ≠ k2 := Ne.symm h
  induction env with
  | nil => simp [envInsert, envLookup, h2]
  | cons p rest ih =>
    obtain ⟨a, b⟩ := p
    by_cases ha : a = k
    · subst ha
      simp [envInsert, envLookup, h2]
    · by_cases ha2 : a = k2 <;> simp [envInsert, envLookup, ha, ha2, ih, h]

/-- Binding argument names does not touch other keys. -/
theorem envLookup_bindArgs_not_mem :
    ∀ (names args : List String) (env : List (String × String)) (k : String),
      k ∉ names → envLookup (bindArgs names args env) k = envLookup env k := by
  intro names
  induction names with
  | nil => intro args env k _; rfl
  | cons nm ns ih =>
    intro args env k hk
    have h1 : k ≠ nm := fun he => hk (by simp [he])
    rw [bindArgs, ih _ _ _ (fun hm => hk (by simp [hm])),
      envLookup_envInsert_other _ _ _ _ h1]

/-- C2 counterexample: the claim asserts that on return the caller's
prior argument bindings are restored and nothing leaks between sibling
invocations.  On the code, only `taskArgs` is saved and restored; the
`env` entries written for the argument names persist.  Fixture: `f(x)`
with no commands and a sibling `g` whose command is `$x`. -/
def taskF : Task := ⟨"f", "", ["x"], [], [], false, "", ""⟩

/-- The sibling task `g` reading `$x`. -/
def taskG : Task :=
  ⟨"g", "", [], [], [⟨[.variableElement "x"], false, false⟩], false, "", ""⟩

/-- The C2 fixture file. -/
def qfC2 : QuakeFile := ⟨[taskF, taskG], [], [], ""⟩

/-- C2 is false as stated: running `f` with `x := "v"` from an empty
environment leaves `x ↦ "v"` bound after the invocation returns (the
prior binding was absent), and a subsequent sibling invocation of `g`
renders its `$x` to the leaked `"v"`. -/
theorem C2_counterexample_binding_leaks :
    envLookup (runTaskWithArgs hostNone qfC2 1 "f" ["v"] ⟨[], []⟩).2.1.env "x" =
      some "v" ∧
    envLookup ([] : List (String × String)) "x" = none ∧
    (runTaskWithArgs hostNone qfC2 1 "g" []
        (runTaskWithArgs hostNone qfC2 1 "f" ["v"] ⟨[], []⟩).2.1).2.2 =
      [Event.shell "v"] := by
  refine ⟨by decide, rfl, by decide⟩

/-- C2 amended: arguments are bound positionally (missing values bind
to the empty string, extra values are ignored), and the saved
`taskArgs` list is restored on every return path; but the environment
entries written for the argument names are not restored — for a
dependency-free task the final environment is exactly the caller's
environment overwritten by the new bindings — so argument bindings leak
into subsequent sibling invocations. -/
theorem C2_amended_argument_scoping :
    (∀ (names args : List String) (env : List (String × String)),
        bindArgs names args env = bindArgs names (args.take names.length) env) ∧
    (∀ (names args : List String) (env : List (String × String)) (i : Nat)
        (hi : i < names.length), names.Nodup →
        envLookup (bindArgs names args env) (names.get ⟨i, hi⟩) =
          some ((args.get? i).getD "")) ∧
    (∀ (h : Host) (qf : QuakeFile) (fuel : Nat) (name : String)
        (args : List String) (st : EvalState),
        (runTaskWithArgs h qf fuel name args st).2.1.taskArgs = st.taskArgs) ∧
    (∀ (h : Host) (qf : QuakeFile) (fuel : Nat) (name : String)
        (args : List String) (st : EvalState) (task : Task),
        findTask qf (if name = "" then "default" else name) = some task →
        task.dependencies = [] →
        (runTaskWithArgs h qf (fuel + 1) name args st).2.1.env =
          bindArgs task.arguments args st.env) := by
  refine ⟨?_, ?_, ?_, ?_⟩
  · intro names
    induction names with
    | nil => intro args env; rfl
    | cons nm ns ih =>
      intro args env
      cases args with
      | nil => simp [List.take_nil]
      | cons a as =>
        simp only [bindArgs, List.take_succ_cons, List.tail_cons, List.headD_cons]
        exact ih as (envInsert env nm a)
  · intro names
    induction names with
    | nil => intro args env i hi _; simp at hi
    | cons nm ns ih =>
      intro args env i hi hnd
      rw [List.nodup_cons] at hnd
      cases i with
      | zero =>
        rw [bindArgs]
        simp only [List.get]
        rw [envLookup_bindArgs_not_mem ns args.tail _ nm hnd.1,
          envLookup_envInsert_self]
        cases args <;> rfl
      | succ k =>
        have hk : k < ns.length := by simpa using hi
        have hrec := ih args.tail (envInsert env nm (args.headD "")) k hk hnd.2
        rw [bindArgs]
        simp only [List.get] at hrec ⊢
        rw [hrec]
        cases args <;> rfl
  · intro h qf fuel name args st
    cases fuel with
    | zero => rfl
    | succ f =>
      simp only [runTaskWithArgs]
      cases hft : findTask qf (if name = "" then "default" else name) with
      | none => simp [hft]
      | some task =>
        simp only [hft]
        split
        · rfl
        · rfl
  · intro h qf fuel name args st task hfind hdeps
    simp only [runTaskWithArgs, hfind, hdeps, runDepsWith]

/-- Witness for the amended C2 at concrete inputs: missing value binds
empty, extras ignored, `taskArgs` restored, environment binding
persists. -/
theorem C2_amended_argument_scoping_witness :
    bindArgs ["x", "y"] ["v", "w", "extra"] [] =
      bindArgs ["x", "y"] ["v", "w"] [] ∧
    envLookup (bindArgs ["x", "y"] ["v"] []) "y" = some "" ∧
    (runTaskWithArgs hostNone qfC2 1 "f" ["v"] ⟨[], ["old"]⟩).2.1.taskArgs =
      ["old"] ∧
    (runTaskWithArgs hostNone qfC2 1 "f" ["v"] ⟨[("p", "q")], []⟩).2.1.env =
      bindArgs ["x"] ["v"] [("p", "q")] :=
  ⟨(C2_amended_argument_scoping.1 ["x", "y"] ["v", "w", "extra"] []).trans
      (by decide),
   by
     have := C2_amended_argument_scoping.2.1 ["x", "y"] ["v"] [] 1 (by decide)
       (by decide)
     simpa using this,
   C2_amended_argument_scoping.2.2.1 hostNone qfC2 1 "f" ["v"] ⟨[], ["old"]⟩,
   C2_amended_argument_scoping.2.2.2 hostNone qfC2 0 "f" ["v"] ⟨[("p", "q")], []⟩
     taskF (by decide) rfl⟩

/-! ## C3: command failure semantics -/

/-- A command is handled natively (silent `echo`): it never reaches the
shell and never fails. -/
def cmdNative (cmd : Command) : Bool := cmd.silent && isEchoCommand cmd

/-- A command fails: it goes to the shell and the shell run errors. -/
def cmdFails (h : Host) (env : List (String × String)) (cmd : Command) : Bool :=
  !cmdNative cmd && (h.shellErr (commandToString h env cmd)).isSome

/-- The events one command contributes when the task keeps running
(either it succeeded, or its failure was downgraded to a warning). -/
def cmdTrace (h : Host) (env : List (String × String)) (cmd : Command) :
    List Event :=
  if cmdNative cmd then [Event.echoNative]
  else
    match h.shellErr (commandToString h env cmd) with
    | none => [Event.shell (commandToString h env cmd)]
    | some e =>
      [Event.shell (commandToString h env cmd),
       Event.warn ("Warning: command failed but continuing: " ++
         ("command failed: " ++ e))]

/-- C3: Commands run in order; a failing command aborts the task with
an error and no later command runs, unless its ContinueOnError flag is
set, in which case the failure becomes a warning and execution
continues; a task whose only failures are on ContinueOnError commands
returns no error. -/
theorem C3_continue_on_error_semantics (h : Host) (env : List (String × String)) :
    (∀ cmds : List Command,
        (∀ cmd ∈ cmds, cmdFails h env cmd = true → cmd.continueOnError = true) →
        executeCommands h env cmds =
          (Except.ok (), (cmds.map (cmdTrace h env)).flatten)) ∧
    (∀ (cs1 : List Command) (c : Command) (cs2 : List Command) (e : String),
        (∀ cmd ∈ cs1, cmdFails h env cmd = true → cmd.continueOnError = true) →
        cmdFails h env c = true → c.continueOnError = false →
        h.shellErr (commandToString h env c) = some e →
        executeCommands h env (cs1 ++ c :: cs2) =
          (Except.error ("command failed: " ++ e),
           (cs1.map (cmdTrace h env)).flatten ++
             [Event.shell (commandToString h env c)])) ∧
    (∀ (st : EvalState) (task : Task), task.isGoTask = false →
        executeTask h st task = executeCommands h st.env task.commands) := by
  have step : ∀ (cmd : Command) (b : Bool),
      executeCommandWithPosition h env cmd b =
        (if cmdNative cmd then (Except.ok (), [Event.echoNative])
         else
           match h.shellErr (commandToString h env cmd) with
           | none => (Except.ok (), [Event.shell (commandToString h env cmd)])
           | some e =>
             (Except.error ("command failed: " ++ e),
              [Event.shell (commandToString h env cmd)])) := by
    intro cmd b
    rw [executeCommandWithPosition, cmdNative]
    rfl
  refine ⟨?_, ?_, fun st task hgo => by simp [executeTask, hgo]⟩
  · intro cmds
    induction cmds with
    | nil => intro _; rfl
    | cons c rest ih =>
      intro hall
      have hrest := ih (fun cmd hm hf => hall cmd (by simp [hm]) hf)
      by_cases hn : cmdNative c = true
      · simp [executeCommands, step, hn, hrest, cmdTrace]
      · simp only [Bool.not_eq_true] at hn
        cases hs : h.shellErr (commandToString h env c) with
        | none => simp [executeCommands, step, hn, hs, hrest, cmdTrace]
        | some e =>
          have hfail : cmdFails h env c = true := by
            simp [cmdFails, hn, hs]
          have hcont := hall c (by simp) hfail
          simp [executeCommands, step, hn, hs, hrest, cmdTrace, hcont]
  · intro cs1
    induction cs1 with
    | nil =>
      intro c cs2 e _ hfail hcont hs
      have hn : cmdNative c = false := by
        cases hcn : cmdNative c
        · rfl
        · simp [cmdFails, hcn] at hfail
      simp [executeCommands, step, hn, hs, hcont]
    | cons a cs1' ih =>
      intro c cs2 e hall hfail hcont hs
      have ha := ih c cs2 e (fun cmd hm hf => hall cmd (by simp [hm]) hf) hfail
        hcont hs
      by_cases hn : cmdNative a = true
      · simp [executeCommands, step, hn, ha, cmdTrace]
      · simp only [Bool.not_eq_true] at hn
        cases hsa : h.shellErr (commandToString h env a) with
        | none => simp [executeCommands, step, hn, hsa, ha, cmdTrace]
        | some ea =>
          have hfa : cmdFails h env a = true := by simp [cmdFails, hn, hsa]
          have hca := hall a (by simp) hfa
          simp [executeCommands, step, hn, hsa, ha, cmdTrace, hca]

/-- A host for the C3 witness: `false` fails with exit status 1, every
other command succeeds. -/
def hostC3 : Host :=
  ⟨fun s => if s = "false" then some "exit status 1" else none,
   fun _ => none, fun _ => none, fun _ _ => none⟩

/-- The failing command with ContinueOnError set (`-false`). -/
def cmdFalseCont : Command := ⟨[.stringElement "false"], false, true⟩

/-- The failing command without ContinueOnError (`false`). -/
def cmdFalseAbort : Command := ⟨[.stringElement "false"], false, false⟩

/-- The follow-up command (`echo after`). -/
def cmdAfter : Command := ⟨[.stringElement "echo after"], false, false⟩

/-- Witness for C3 at concrete inputs: `[-false, echo after]` completes
the task and runs `echo after` after a warning; without `-` the task
aborts with the command's error before `echo after`. -/
theorem C3_continue_on_error_semantics_witness :
    executeCommands hostC3 [] [cmdFalseCont, cmdAfter] =
      (Except.ok (),
       [Event.shell "false",
        Event.warn
          "Warning: command failed but continuing: command failed: exit status 1",
        Event.shell "echo after"]) ∧
    executeCommands hostC3 [] [cmdFalseAbort, cmdAfter] =
      (Except.error "command failed: exit status 1", [Event.shell "false"]) :=
  ⟨((C3_continue_on_error_semantics hostC3 []).1 [cmdFalseCont, cmdAfter]
      (by decide)).trans (by rfl),
   ((C3_continue_on_error_semantics hostC3 []).2.1 [] cmdFalseAbort [cmdAfter]
      "exit status 1" (by decide) (by decide) rfl (by decide)).trans (by rfl)⟩

/-! ## C1: dependency chain before own commands -/

/-- Specification-side dependency run, following the claim text:
invoke each dependency in declaration order with no arguments; stop at
the first failing dependency, reporting its name and error unwrapped. -/
def runDepsSpec (h : Host) (qf : QuakeFile) (fuel : Nat) :
    List String → EvalState →
    Option (String × String) × EvalState × List Event
  | [], st => (none, st, [])
  | dep :: rest, st =>
    match runTaskWithArgs h qf fuel dep [] st with
    | (Except.error e, st2, evs) => (some (dep, e), st2, evs)
    | (Except.ok _, st2, evs) =>
      let (r, st3, evs2) := runDepsSpec h qf fuel rest st2
      (r, st3, evs ++ evs2)

/-- The dependency loop of the code agrees with the specification-side
run: the first dependency failure is wrapped with the dependency name,
later dependencies are not invoked, and on success the states and
traces chain in declaration order. -/
theorem runDepsWith_eq_spec (h : Host) (qf : QuakeFile) (fuel : Nat) :
    ∀ (deps : List String) (st : EvalState),
      runDepsWith (fun dep st2 => runTaskWithArgs h qf fuel dep [] st2) deps st =
        (match runDepsSpec h qf fuel deps st with
         | (some (d, e), st2, evs) =>
           (Except.error ("dependency \x27" ++ d ++ "\x27 failed: " ++ e), st2, evs)
         | (none, st2, evs) => (Except.ok (), st2, evs)) := by
  intro deps
  induction deps with
  | nil => intro st; rfl
  | cons dep rest ih =>
    intro st
    rw [runDepsWith, runDepsSpec]
    cases hrun : runTaskWithArgs h qf fuel dep [] st with
    | mk r rest2 =>
      obtain ⟨st2, evs⟩ := rest2
      cases r with
      | error e => rfl
      | ok u =>
        dsimp only
        rw [ih st2]
        cases hspec : runDepsSpec h qf fuel rest st2 with
        | mk ro rest3 =>
          obtain ⟨st3, evs2⟩ := rest3
          cases ro with
          | none => rfl
          | some p => obtain ⟨d, e⟩ := p; rfl

/-- C1: `RunTaskWithArgs` first invokes each of the task's dependencies
in declaration order, each with no arguments; a failing dependency makes
the whole invocation return that error wrapped with the dependency name,
with the event trace containing only the dependency events — none of the
task's own commands run, regardless of ContinueOnError flags inside the
dependency — and only when every dependency succeeds is `executeTask`
run, its events following the dependency events. -/
theorem C1_dependencies_before_own_commands (h : Host) (qf : QuakeFile)
    (fuel : Nat) (taskName : String) (args : List String) (st : EvalState)
    (task : Task)
    (hfind : findTask qf (if taskName = "" then "default" else taskName) =
      some task) :
    runTaskWithArgs h qf (fuel + 1) taskName args st =
      (match runDepsSpec h qf fuel task.dependencies
          ⟨bindArgs task.arguments args st.env, args⟩ with
       | (some (d, e), st2, evs) =>
         (Except.error ("dependency \x27" ++ d ++ "\x27 failed: " ++ e),
          { st2 with taskArgs := st.taskArgs }, evs)
       | (none, st2, evs) =>
         (( executeTask h st2 task).1,
          { st2 with taskArgs := st.taskArgs },
          evs ++ (executeTask h st2 task).2)) := by
  rw [runTaskWithArgs]
  simp only [hfind]
  rw [runDepsWith_eq_spec]
  cases hspec : runDepsSpec h qf fuel task.dependencies
      ⟨bindArgs task.arguments args st.env, args⟩ with
  | mk ro rest3 =>
    obtain ⟨st2, evs⟩ := rest3
    cases ro with
    | none => rfl
    | some p => obtain ⟨d, e⟩ := p; rfl

/-- A host for the C1 witness: `boom` fails, everything else
succeeds. -/
def hostC1 : Host :=
  ⟨fun s => if s = "boom" then some "exit status 1" else none,
   fun _ => none, fun _ => none, fun _ _ => none⟩

/-- Dependency task `a` (`echo A`). -/
def taskDepA : Task :=
  ⟨"a", "", [], [], [⟨[.stringElement "echo A"], false, false⟩], false, "", ""⟩

/-- Dependency task `bad` whose only command fails (its own
ContinueOnError is off, so the task itself fails). -/
def taskDepBad : Task :=
  ⟨"bad", "", [], [], [⟨[.stringElement "boom"], false, false⟩], false, "", ""⟩

/-- Task `b` depending on `a` then `bad`, with its own command. -/
def taskB : Task :=
  ⟨"b", "", [], ["a", "bad"], [⟨[.stringElement "echo B"], false, false⟩],
   false, "", ""⟩

/-- Task `ok` depending only on `a`, with its own command. -/
def taskOkDeps : Task :=
  ⟨"ok", "", [], ["a"], [⟨[.stringElement "echo OK"], false, false⟩],
   false, "", ""⟩

/-- The C1 fixture file. -/
def qfC1 : QuakeFile := ⟨[taskDepA, taskDepBad, taskB, taskOkDeps], [], [], ""⟩

/-- Witness for C1 at concrete inputs: running `b` runs `a`, then the
failing `bad`, returns the wrapped dependency error, and never reaches
`echo B`; running `ok` runs `a`'s command strictly before its own. -/
theorem C1_dependencies_before_own_commands_witness :
    runTaskWithArgs hostC1 qfC1 2 "b" [] ⟨[], []⟩ =
      (Except.error
         "dependency \x27bad\x27 failed: command failed: exit status 1",
       ⟨[], []⟩, [Event.shell "echo A", Event.shell "boom"]) ∧
    runTaskWithArgs hostC1 qfC1 2 "ok" [] ⟨[], []⟩ =
      (Except.ok (), ⟨[], []⟩, [Event.shell "echo A", Event.shell "echo OK"]) :=
  ⟨(C1_dependencies_before_own_commands hostC1 qfC1 1 "b" [] ⟨[], []⟩ taskB
      (by rfl)).trans (by rfl),
   (C1_dependencies_before_own_commands hostC1 qfC1 1 "ok" [] ⟨[], []⟩ taskOkDeps
      (by rfl)).trans (by rfl)⟩

/-! ## C7: quote-aware balanced-brace scanning -/

/-- The body of a closed quoted span with quote character `q`: escaped
quotes, escaped backslashes, and ordinary characters (braces included),
never an unescaped `q`. -/
inductive SpanBody (q : Char) : List Char → Prop where
  | nil : SpanBody q []
  | escQuote {rest} : SpanBody q rest → SpanBody q ('\\' :: q :: rest)
  | escBackslash {rest} : SpanBody q rest → SpanBody q ('\\' :: '\\' :: rest)
  | other {c rest} : c ≠ q → c ≠ '\\' → SpanBody q rest → SpanBody q (c :: rest)

/-- Balanced task-body content, following the claim text: quoted spans
(whose interior may hold braces and escaped quotes), nested balanced
`\x7b...\x7d` groups, and ordinary characters other than braces and
quotes. -/
inductive Balanced : List Char → Prop where
  | nil : Balanced []
  | quote {q inner rest} : (q = '"' ∨ q = '\x27') → SpanBody q inner →
      Balanced rest → Balanced (q :: (inner ++ q :: rest))
  | brace {inner rest} : Balanced inner → Balanced rest →
      Balanced ('{' :: (inner ++ '}' :: rest))
  | other {c rest} : c ≠ '}' → c ≠ '{' → c ≠ '"' → c ≠ '\x27' →
      Balanced rest → Balanced (c :: rest)

/-- The quoted-span inner star consumes a span body wholly and stops at
the closing quote. -/
theorem quoteSpanInnerF_spanBody {q : Char} (hq : q ≠ '\\') :
    ∀ {inner : List Char}, SpanBody q inner →
      ∀ (t : List Char) (fuel : Nat), inner.length ≤ fuel →
      quoteSpanInnerF q fuel (inner ++ q :: t) = q :: t := by
  intro inner hsb
  induction hsb with
  | nil =>
    intro t fuel _
    cases fuel with
    | zero => rfl
    | succ f => simp [quoteSpanInnerF]
  | escQuote _ ih =>
    rename_i rest _
    intro t fuel hfuel
    cases fuel with
    | zero => simp at hfuel
    | succ f =>
      simp only [List.cons_append, quoteSpanInnerF]
      rw [if_neg (Ne.symm hq), if_pos ⟨trivial, Or.inl rfl⟩]
      exact ih t f (by simp at hfuel ⊢; omega)
  | escBackslash _ ih =>
    rename_i rest _
    intro t fuel hfuel
    cases fuel with
    | zero => simp at hfuel
    | succ f =>
      simp only [List.cons_append, quoteSpanInnerF]
      rw [if_neg (Ne.symm hq), if_pos ⟨trivial, Or.inr rfl⟩]
      exact ih t f (by simp at hfuel ⊢; omega)
  | other hcq hcb _ ih =>
    rename_i c rest _
    intro t fuel hfuel
    cases fuel with
    | zero => simp at hfuel
    | succ f =>
      simp only [List.cons_append, quoteSpanInnerF]
      rw [if_neg hcq, if_neg (fun hand => hcb hand.1)]
      exact ih t f (by simp at hfuel ⊢; omega)

/-- A quoted-span alternative consumes an entire closed span: braces
and escaped quotes inside it are ordinary text. -/
theorem matchQuoteSpan_span {q : Char} (hq : q ≠ '\\') {inner : List Char}
    (hsb : SpanBody q inner) (t : List Char) :
    matchQuoteSpan q (q :: (inner ++ q :: t)) = some t := by
  rw [matchQuoteSpan]
  simp only [if_pos rfl]
  rw [quoteSpanInnerF_spanBody hq hsb t (inner ++ q :: t).length (by simp)]
  simp

/-- The quoted-span alternative fails when the head is not the
quote. -/
theorem matchQuoteSpan_ne_head {q c : Char} (h : c ≠ q) (rest : List Char) :
    matchQuoteSpan q (c :: rest) = none := by
  simp [matchQuoteSpan, h]

/-- The balanced-content scan consumes balanced content wholly and
stops exactly at the first unmatched closing brace at depth zero. -/
theorem balancedRestF_balanced :
    ∀ {s : List Char}, Balanced s →
      ∀ (t : List Char) (fuel : Nat), s.length + t.length + 1 ≤ fuel →
      balancedRestF fuel (s ++ '}' :: t) = '}' :: t := by
  intro s hbal
  induction hbal with
  | nil =>
    intro t fuel hfuel
    cases fuel with
    | zero => simp at hfuel
    | succ f =>
      rw [List.nil_append, balancedRestF,
        matchQuoteSpan_ne_head (by decide) t, matchQuoteSpan_ne_head (by decide) t]
      simp
  | quote hq hsb _ ih =>
    rename_i q inner rest _
    intro t fuel hfuel
    cases fuel with
    | zero => simp at hfuel
    | succ f =>
      have hqb : q ≠ '\\' := by rcases hq with h | h <;> simp [h]
      have hspan := matchQuoteSpan_span hqb hsb (rest ++ '}' :: t)
      have hih := ih t f (by simp at hfuel ⊢; omega)
      rcases hq with h | h
      · subst h
        simp only [List.cons_append, List.append_assoc] at hspan ⊢
        simp only [balancedRestF, hspan]
        exact hih
      · subst h
        simp only [List.cons_append, List.append_assoc] at hspan ⊢
        simp only [balancedRestF, matchQuoteSpan_ne_head (by decide : ('\x27' : Char) ≠ '"'), hspan]
        exact hih
  | brace _ _ ih1 ih2 =>
    rename_i inner rest _ _
    intro t fuel hfuel
    cases fuel with
    | zero => simp at hfuel
    | succ f =>
      have hih1 := ih1 (rest ++ '}' :: t) f (by simp at hfuel ⊢; omega)
      have hih2 := ih2 t f (by simp at hfuel ⊢; omega)
      simp only [List.cons_append, List.append_assoc] at hih1 hih2 ⊢
      simp only [balancedRestF,
        matchQuoteSpan_ne_head (by decide : ('{' : Char) ≠ '"'),
        matchQuoteSpan_ne_head (by decide : ('{' : Char) ≠ '\x27'), if_true]
      rw [hih1]
      exact hih2
  | other h1 h2 h3 h4 _ ih =>
    rename_i c rest _
    intro t fuel hfuel
    cases fuel with
    | zero => simp at hfuel
    | succ f =>
      have hih := ih t f (by simp at hfuel ⊢; omega)
      simp only [List.cons_append] at hih ⊢
      simp only [balancedRestF, matchQuoteSpan_ne_head h3,
        matchQuoteSpan_ne_head h4]
      rw [if_neg h2, if_neg h1]
      exact hih

/-- C7: braces inside a closed quoted span (escaped quote characters
honored) are ordinary text — the span alternative consumes the whole
span; balanced content built from quoted spans, nested `\x7b...\x7d`
groups and ordinary characters is consumed wholly, the body ending at
the first unmatched `\x7d` at depth zero; concretely, a body containing
`echo "a \x7d b"` does not terminate at the quoted `\x7d` and parses as one
command. -/
theorem C7_quote_aware_brace_scanning :
    (∀ (q : Char) (inner t : List Char), (q = '"' ∨ q = '\x27') →
        SpanBody q inner →
        matchQuoteSpan q (q :: (inner ++ q :: t)) = some t) ∧
    (∀ (s t : List Char), Balanced s →
        balancedRestOf (s ++ '}' :: t) = '}' :: t) ∧
    balancedRestOf "echo \"a \x7d b\"\n\x7d".toList = ['}'] ∧
    parseCommands "echo \"a \x7d b\"" =
      [⟨[.stringElement "echo \"a \x7d b\""], false, false⟩] := by
  refine ⟨?_, ?_, by decide, by decide⟩
  · intro q inner t hq hsb
    exact matchQuoteSpan_span (by rcases hq with h | h <;> simp [h]) hsb t
  · intro s t hbal
    exact balancedRestF_balanced hbal t (s ++ '}' :: t).length (by simp; omega)

/-- Witness for C7 at concrete inputs: the quoted span `"a \x7d b"` is
consumed as a unit, and the nested group `\x7ba\x7d` is consumed as balanced
sub-content, the scan stopping at the following unmatched `\x7d`. -/
theorem C7_quote_aware_brace_scanning_witness :
    matchQuoteSpan '"' ('"' :: (['a', ' ', '}', ' ', 'b'] ++ '"' :: ['x'])) =
      some ['x'] ∧
    balancedRestOf (['{', 'a', '}'] ++ '}' :: []) = ['}'] :=
  ⟨C7_quote_aware_brace_scanning.1 '"' ['a', ' ', '}', ' ', 'b'] ['x']
      (Or.inl rfl)
      (by repeat (first | exact SpanBody.nil
                        | refine SpanBody.other (by decide) (by decide) ?_)),
   C7_quote_aware_brace_scanning.2.1 ['{', 'a', '}'] []
      (Balanced.brace
        (Balanced.other (by decide) (by decide) (by decide) (by decide)
          Balanced.nil)
        Balanced.nil)⟩

/-! ## C8: parseCommands line handling -/

/-- The line loop appends exactly the per-line results. -/
theorem parseCommandsLines_eq_filterMap (lines : List String) :
    parseCommandsLines lines = lines.filterMap parseCommandLine := by
  induction lines with
  | nil => rfl
  | cons line rest ih =>
    cases h : parseCommandLine line <;>
      simp [parseCommandsLines, List.filterMap_cons, h, ih]

/-- C8 counterexample: the claim says a line that is empty after
modifier-stripping produces no Command; the code appends a Command
unconditionally, so the body line `-` yields one Command (with
ContinueOnError set and no elements). -/
theorem C8_counterexample_bare_modifier_line :
    parseCommands "-" = [⟨[], false, true⟩] ∧
    parseCommands "@" = [⟨[], true, false⟩] := by
  refine ⟨by decide, by decide⟩

/-- C8 amended: `parseCommands` splits the content into physical lines
and strips only trailing blanks/tabs/carriage returns from each line;
an originally blank line is skipped, and every other line yields
exactly one Command — including lines empty after modifier-stripping;
a line whose whitespace-trimmed text starts with `@` (resp. `-`) sets
Silent (resp. ContinueOnError) and parses the whitespace-trimmed
remainder with the command-element grammar, so leading indentation is
not retained in the parsed elements. -/
theorem C8_amended_parse_commands :
    (∀ content : String,
        parseCommands content =
          ((splitOnChar '\n' content.toList).map
            (fun l => (⟨l⟩ : String))).filterMap parseCommandLine) ∧
    (∀ line : String, goTrimRight line [' ', '\t', '\r'] = "" →
        parseCommandLine line = none) ∧
    (∀ line : String, (parseCommandLine line).isSome =
        !(goTrimRight line [' ', '\t', '\r'] = "")) ∧
    (∀ line : String, goTrimRight line [' ', '\t', '\r'] ≠ "" →
        goHasPrefix (goTrimSpace (goTrimRight line [' ', '\t', '\r'])) "@" = true →
        parseCommandLine line = some
          ⟨parseCommandElements (goTrimSpace
            ⟨(goTrimSpace (goTrimRight line [' ', '\t', '\r'])).toList.drop 1⟩),
           true, false⟩) ∧
    (∀ line : String, goTrimRight line [' ', '\t', '\r'] ≠ "" →
        goHasPrefix (goTrimSpace (goTrimRight line [' ', '\t', '\r'])) "@" = false →
        goHasPrefix (goTrimSpace (goTrimRight line [' ', '\t', '\r'])) "-" = true →
        parseCommandLine line = some
          ⟨parseCommandElements (goTrimSpace
            ⟨(goTrimSpace (goTrimRight line [' ', '\t', '\r'])).toList.drop 1⟩),
           false, true⟩) ∧
    (∀ line : String, goTrimRight line [' ', '\t', '\r'] ≠ "" →
        goHasPrefix (goTrimSpace (goTrimRight line [' ', '\t', '\r'])) "@" = false →
        goHasPrefix (goTrimSpace (goTrimRight line [' ', '\t', '\r'])) "-" = false →
        parseCommandLine line = some
          ⟨parseCommandElements (goTrimSpace (goTrimRight line [' ', '\t', '\r'])),
           false, false⟩) ∧
    parseCommands "  echo hi  " = [⟨[.stringElement "echo hi"], false, false⟩] := by
  refine ⟨?_, ?_, ?_, ?_, ?_, ?_, by decide⟩
  · intro content
    rw [parseCommands, parseCommandsLines_eq_filterMap]
  · intro line h
    simp [parseCommandLine, h]
  · intro line
    by_cases h : goTrimRight line [' ', '\t', '\r'] = "" <;>
      simp [parseCommandLine, h]
  · intro line hne hat
    simp only [parseCommandLine, hne, if_false, hat, if_true]
  · intro line hne hat hdash
    simp only [parseCommandLine, hne, hat, hdash]
    simp [hne]
  · intro line hne hat hdash
    simp only [parseCommandLine, hne, hat, hdash]
    simp [hne]

/-- Witness for the amended C8 at concrete inputs. -/
theorem C8_amended_parse_commands_witness :
    parseCommandLine "   " = none ∧
    (parseCommandLine "  @echo hi").isSome = true ∧
    parseCommandLine "  @echo hi" =
      some ⟨parseCommandElements "echo hi", true, false⟩ ∧
    parseCommandLine "  -false" =
      some ⟨parseCommandElements "false", false, true⟩ ∧
    parseCommandLine "  make build" =
      some ⟨parseCommandElements "make build", false, false⟩ :=
  ⟨C8_amended_parse_commands.2.1 "   " (by decide),
   (C8_amended_parse_commands.2.2.1 "  @echo hi").trans (by decide),
   (C8_amended_parse_commands.2.2.2.1 "  @echo hi" (by decide) (by decide)).trans
     (by decide),
   (C8_amended_parse_commands.2.2.2.2.1 "  -false" (by decide) (by decide)
     (by decide)).trans (by decide),
   (C8_amended_parse_commands.2.2.2.2.2.1 "  make build" (by decide) (by decide)
     (by decide)).trans (by decide)⟩

/-! ## C9: JSON serialization (part_004 lines 38-358)

Marshal/unmarshal are embedded at the level of the `JsonVal` document
tree; Go struct fields marshal in declaration order with their tag
names, `omitempty` fields are omitted at their zero values, and
decoding reads object fields by name with absent fields leaving the
zero value.  Go's nil and empty slices are both rendered as `[]` here
(the spec's empty-container invariant identifies them). -/

/-- Field access of Go `encoding/json` object decoding. -/
def lookupField : List (String × JsonVal) → String → Option JsonVal
  | [], _ => none
  | (k, v) :: rest, key => if k = key then some v else lookupField rest key

/-- Decode every element of a JSON array, failing on the first bad
element (the per-element loops of the `UnmarshalJSON` methods). -/
def mapExcept (f : α → Except String β) : List α → Except String (List β)
  | [] => .ok []
  | a :: rest =>
    match f a with
    | .error e => .error e
    | .ok b =>
      match mapExcept f rest with
      | .error e => .error e
      | .ok bs => .ok (b :: bs)

/-- Go `marshalExpression`: a type-tagged object per variant (the
`unknown expression type` branch is unreachable on the closed variant
set). -/
def marshalExpression : Expression → JsonVal
  | .identifier name => .obj [("type", .str "identifier"), ("name", .str name)]
  | .accessId object property =>
    .obj [("type", .str "access"), ("object", marshalExpression object),
          ("property", .str property)]
  | .stringLiteral value => .obj [("type", .str "string"), ("value", .str value)]
  | .or left right =>
    .obj [("type", .str "or"), ("left", marshalExpression left),
          ("right", marshalExpression right)]

/-- The per-element tagging of `Command.MarshalJSON`. -/
def marshalCommandElement : CommandElement → JsonVal
  | .stringElement v => .obj [("type", .str "string"), ("value", .str v)]
  | .backtickElement c => .obj [("type", .str "backtick"), ("command", .str c)]
  | .expressionElement e =>
    .obj [("type", .str "expression"), ("expression", marshalExpression e)]
  | .variableElement n => .obj [("type", .str "variable"), ("name", .str n)]

/-- Go `Command.MarshalJSON`: tagged elements plus the two `omitempty`
flags. -/
def marshalCommand (c : Command) : JsonVal :=
  .obj (("elements", .arr (c.elements.map marshalCommandElement)) ::
    ((if c.silent then [("silent", .jbool true)] else []) ++
     (if c.continueOnError then [("continue_on_error", .jbool true)] else [])))

/-- The `Value` handling of Go `Variable.MarshalJSON`: strings pass
through, expressions and backtick elements get tagged objects, decoded
generic values marshal as themselves. -/
def marshalGoValue : GoValue → JsonVal
  | .str s => .str s
  | .expr e => marshalExpression e
  | .backtickElem c => .obj [("type", .str "backtick"), ("command", .str c)]
  | .json j => j

/-- Go `Variable.MarshalJSON`. -/
def marshalVariable (v : Variable) : JsonVal :=
  .obj (("name", .str v.name) :: ("value", marshalGoValue v.value) ::
    ((if v.isExpression then [("is_expression", .jbool true)] else []) ++
     (if v.commandSubstitution then [("command_substitution", .jbool true)]
      else []) ++
     (if v.isMultiline then [("is_multiline", .jbool true)] else [])))

/-- Default struct marshaling of Go `parser.Task` (tags `name`,
`description,omitempty`, `arguments,omitempty`, `dependencies,omitempty`,
`commands`); the external-task metadata modelled from the spec is not
part of the serialized struct in the sources. -/
def marshalTask (t : Task) : JsonVal :=
  .obj (("name", .str t.name) ::
    ((if t.description = "" then [] else [("description", .str t.description)]) ++
     (if t.arguments.isEmpty then []
      else [("arguments", .arr (t.arguments.map JsonVal.str))]) ++
     (if t.dependencies.isEmpty then []
      else [("dependencies", .arr (t.dependencies.map JsonVal.str))]) ++
     [("commands", .arr (t.commands.map marshalCommand))]))

mutual

/-- Default struct marshaling of Go `parser.Namespace` (tags `name`,
`tasks,omitempty`, `variables,omitempty`, `namespaces,omitempty`). -/
def marshalNamespace : Namespace → JsonVal
  | .mk n ts vs nss =>
    .obj (("name", .str n) ::
      ((if ts.isEmpty then [] else [("tasks", .arr (ts.map marshalTask))]) ++
       (if vs.isEmpty then []
        else [("variables", .arr (vs.map marshalVariable))]) ++
       (if nss.isEmpty then []
        else [("namespaces", .arr (marshalNamespaceList nss))])))

/-- Marshal a namespace list elementwise. -/
def marshalNamespaceList : List Namespace → List JsonVal
  | [] => []
  | ns :: rest => marshalNamespace ns :: marshalNamespaceList rest

end

/-- Default struct marshaling of Go `parser.QuakeFile` (tags `tasks`,
`namespaces,omitempty`, `variables,omitempty`,
`file_namespace,omitempty`). -/
def marshalQuakeFile (qf : QuakeFile) : JsonVal :=
  .obj (("tasks", .arr (qf.tasks.map marshalTask)) ::
    ((if qf.namespaces.isEmpty then []
      else [("namespaces", .arr (marshalNamespaceList qf.namespaces))]) ++
     (if qf.vars.isEmpty then []
      else [("variables", .arr (qf.vars.map marshalVariable))]) ++
     (if qf.fileNamespace = "" then []
      else [("file_namespace", .str qf.fileNamespace)])))

/-- Decode a JSON value into a Go `string` field. -/
def asString : JsonVal → Except String String
  | .str s => .ok s
  | _ => .error "json: cannot unmarshal value into Go value of type string"

/-- Decode an optional string field (absent leaves the zero value). -/
def decodeStringField (fields : List (String × JsonVal)) (key : String) :
    Except String String :=
  match lookupField fields key with
  | none => .ok ""
  | some v => asString v

/-- Decode an optional bool field (absent leaves `false`). -/
def decodeBoolField (fields : List (String × JsonVal)) (key : String) :
    Except String Bool :=
  match lookupField fields key with
  | none => .ok false
  | some (.jbool b) => .ok b
  | some _ => .error "json: cannot unmarshal value into Go value of type bool"

/-- Decode an optional `[]string` field (absent and `null` decode to
the empty container). -/
def decodeStringListField (fields : List (String × JsonVal)) (key : String) :
    Except String (List String) :=
  match lookupField fields key with
  | none => .ok []
  | some .null => .ok []
  | some (.arr l) => mapExcept asString l
  | some _ => .error "json: cannot unmarshal value into Go value of type []string"

/-- The `case "expression"` of `Command.UnmarshalJSON` decodes into
`ExpressionElement`, whose `Expression` field is the non-empty Go
interface `parser.Expression` with no custom unmarshaler in the
sources: `encoding/json` rejects any (non-null) JSON value there.  The
JSON-null/absent-field case would leave a nil interface, which has no
counterpart in this closed AST and is never produced by
`MarshalJSON`. -/
def unmarshalCommandElement (v : JsonVal) : Except String CommandElement :=
  match v with
  | .obj fields =>
    match lookupField fields "type" with
    | some (.str "string") =>
      match decodeStringField fields "value" with
      | .error e => .error e
      | .ok s => .ok (.stringElement s)
    | some (.str "backtick") =>
      match decodeStringField fields "command" with
      | .error e => .error e
      | .ok c => .ok (.backtickElement c)
    | some (.str "expression") =>
      .error
        "json: cannot unmarshal object into Go struct field ExpressionElement.expression of type parser.Expression"
    | some (.str "variable") =>
      match decodeStringField fields "name" with
      | .error e => .error e
      | .ok n => .ok (.variableElement n)
    | some (.str ty) => .error ("unknown command element type: " ++ ty)
    | some _ =>
      .error "json: cannot unmarshal value into Go value of type string"
    | none => .error "unknown command element type: "
  | _ => .error "json: cannot unmarshal value into Go value of type struct"

/-- Go `Command.UnmarshalJSON`. -/
def unmarshalCommand (v : JsonVal) : Except String Command :=
  match v with
  | .obj fields =>
    match decodeBoolField fields "silent" with
    | .error e => .error e
    | .ok silent =>
    match decodeBoolField fields "continue_on_error" with
    | .error e => .error e
    | .ok continueOnError =>
    match lookupField fields "elements" with
    | none => .ok ⟨[], silent, continueOnError⟩
    | some .null => .ok ⟨[], silent, continueOnError⟩
    | some (.arr l) =>
      match mapExcept unmarshalCommandElement l with
      | .error e => .error e
      | .ok elems => .ok ⟨elems, silent, continueOnError⟩
    | some _ =>
      .error "json: cannot unmarshal value into Go value of type []json.RawMessage"
  | _ => .error "json: cannot unmarshal value into Go value of type Command"

/-- Default decoding of the `any`-typed `Variable.Value`: a JSON string
becomes a Go string, anything else the generic decoded value. -/
def unmarshalGoValue : JsonVal → GoValue
  | .str s => .str s
  | v => .json v

/-- Default struct decoding of Go `parser.Variable` (no custom
`UnmarshalJSON` exists in the sources). -/
def unmarshalVariable (v : JsonVal) : Except String Variable :=
  match v with
  | .obj fields =>
    match decodeStringField fields "name" with
    | .error e => .error e
    | .ok name =>
    match decodeBoolField fields "is_expression" with
    | .error e => .error e
    | .ok isExpression =>
    match decodeBoolField fields "command_substitution" with
    | .error e => .error e
    | .ok commandSubstitution =>
    match decodeBoolField fields "is_multiline" with
    | .error e => .error e
    | .ok isMultiline =>
      .ok ⟨name,
        (match lookupField fields "value" with
         | none => .json .null
         | some w => unmarshalGoValue w),
        isExpression, commandSubstitution, isMultiline⟩
  | _ => .error "json: cannot unmarshal value into Go value of type Variable"

/-- Default struct decoding of Go `parser.Task`. -/
def unmarshalTask (v : JsonVal) : Except String Task :=
  match v with
  | .obj fields =>
    match decodeStringField fields "name" with
    | .error e => .error e
    | .ok name =>
    match decodeStringField fields "description" with
    | .error e => .error e
    | .ok description =>
    match decodeStringListField fields "arguments" with
    | .error e => .error e
    | .ok arguments =>
    match decodeStringListField fields "dependencies" with
    | .error e => .error e
    | .ok dependencies =>
    match lookupField fields "commands" with
    | none => .ok ⟨name, description, arguments, dependencies, [], false, "", ""⟩
    | some .null =>
      .ok ⟨name, description, arguments, dependencies, [], false, "", ""⟩
    | some (.arr l) =>
      match mapExcept unmarshalCommand l with
      | .error e => .error e
      | .ok commands =>
        .ok ⟨name, description, arguments, dependencies, commands, false, "", ""⟩
    | some _ =>
      .error "json: cannot unmarshal value into Go value of type []Command"
  | _ => .error "json: cannot unmarshal value into Go value of type Task"

/-- Fields of a JSON object are smaller than the object. -/
theorem lookupField_sizeOf {fields : List (String × JsonVal)} {key : String}
    {w : JsonVal} (h : lookupField fields key = some w) :
    sizeOf w < sizeOf (JsonVal.obj fields) := by
  induction fields with
  | nil => simp [lookupField] at h
  | cons p rest ih =>
    obtain ⟨k, v⟩ := p
    rw [lookupField] at h
    by_cases hk : k = key
    · rw [if_pos hk] at h
      cases h
      simp
      omega
    · rw [if_neg hk] at h
      have := ih h
      simp at this ⊢
      omega

mutual

/-- Default struct decoding of Go `parser.Namespace` (recursive through
the `namespaces` field). -/
def unmarshalNamespace (v : JsonVal) : Except String Namespace :=
  match v with
  | .obj fields =>
    match decodeStringField fields "name" with
    | .error e => .error e
    | .ok name =>
    match lookupField fields "tasks" with
    | some (.str _) =>
      .error "json: cannot unmarshal value into Go value of type []Task"
    | some (.num _) =>
      .error "json: cannot unmarshal value into Go value of type []Task"
    | some (.jbool _) =>
      .error "json: cannot unmarshal value into Go value of type []Task"
    | some (.obj _) =>
      .error "json: cannot unmarshal value into Go value of type []Task"
    | htasks =>
    match (match htasks with
           | some (.arr l) => mapExcept unmarshalTask l
           | _ => .ok []) with
    | .error e => .error e
    | .ok ts =>
    match lookupField fields "variables" with
    | some (.str _) =>
      .error "json: cannot unmarshal value into Go value of type []Variable"
    | some (.num _) =>
      .error "json: cannot unmarshal value into Go value of type []Variable"
    | some (.jbool _) =>
      .error "json: cannot unmarshal value into Go value of type []Variable"
    | some (.obj _) =>
      .error "json: cannot unmarshal value into Go value of type []Variable"
    | hvars =>
    match (match hvars with
           | some (.arr l) => mapExcept unmarshalVariable l
           | _ => .ok []) with
    | .error e => .error e
    | .ok vs =>
    match hns : lookupField fields "namespaces" with
    | none => .ok (.mk name ts vs [])
    | some .null => .ok (.mk name ts vs [])
    | some (.arr l) =>
      match unmarshalNamespaceList l with
      | .error e => .error e
      | .ok nss => .ok (.mk name ts vs nss)
    | some _ =>
      .error "json: cannot unmarshal value into Go value of type []Namespace"
  | _ => .error "json: cannot unmarshal value into Go value of type Namespace"
termination_by sizeOf v
decreasing_by
  have h1 := lookupField_sizeOf hns
  simp at h1 ⊢
  omega

/-- Decode a namespace array elementwise. -/
def unmarshalNamespaceList : List JsonVal → Except String (List Namespace)
  | [] => .ok []
  | v :: rest =>
    match unmarshalNamespace v with
    | .error e => .error e
    | .ok ns =>
      match unmarshalNamespaceList rest with
      | .error e => .error e
      | .ok nss => .ok (ns :: nss)
termination_by l => sizeOf l
decreasing_by all_goals (simp; try omega)

end

/-- Go `QuakeFile.UnmarshalJSON`: default decoding plus the
nil-to-empty fixups on the three top-level lists. -/
def unmarshalQuakeFile (v : JsonVal) : Except String QuakeFile :=
  match v with
  | .obj fields =>
    match decodeStringField fields "file_namespace" with
    | .error e => .error e
    | .ok fileNamespace =>
    match lookupField fields "tasks" with
    | some (.str _) =>
      .error "json: cannot unmarshal value into Go value of type []Task"
    | some (.num _) =>
      .error "json: cannot unmarshal value into Go value of type []Task"
    | some (.jbool _) =>
      .error "json: cannot unmarshal value into Go value of type []Task"
    | some (.obj _) =>
      .error "json: cannot unmarshal value into Go value of type []Task"
    | htasks =>
    match (match htasks with
           | some (.arr l) => mapExcept unmarshalTask l
           | _ => .ok []) with
    | .error e => .error e
    | .ok ts =>
    match lookupField fields "namespaces" with
    | none => finishQuakeFile ts [] fields fileNamespace
    | some .null => finishQuakeFile ts [] fields fileNamespace
    | some (.arr l) =>
      match unmarshalNamespaceList l with
      | .error e => .error e
      | .ok nss => finishQuakeFile ts nss fields fileNamespace
    | some _ =>
      .error "json: cannot unmarshal value into Go value of type []Namespace"
  | _ => .error "json: cannot unmarshal value into Go value of type QuakeFile"
where
  finishQuakeFile (ts : List Task) (nss : List Namespace)
      (fields : List (String × JsonVal)) (fileNamespace : String) :
      Except String QuakeFile :=
    match lookupField fields "variables" with
    | none => .ok ⟨ts, nss, [], fileNamespace⟩
    | some .null => .ok ⟨ts, nss, [], fileNamespace⟩
    | some (.arr l) =>
      match mapExcept unmarshalVariable l with
      | .error e => .error e
      | .ok vs => .ok ⟨ts, nss, vs, fileNamespace⟩
    | some _ =>
      .error "json: cannot unmarshal value into Go value of type []Variable"

/-- Serializable command element: everything except the expression
variant (whose decode fails on the non-empty interface field). -/
def elemOk : CommandElement → Bool
  | .expressionElement _ => false
  | _ => true

/-- Serializable command: no expression elements. -/
def cmdOk (c : Command) : Bool := c.elements.all elemOk

/-- Serializable variable: a plain string value (expression and
backtick values decode to generic JSON, not their variants). -/
def varOk (v : Variable) : Bool :=
  match v.value with
  | .str _ => true
  | _ => false

/-- Serializable task: serializable commands and no external-task
metadata (those fields are outside the serialized struct). -/
def taskOk (t : Task) : Bool :=
  t.commands.all cmdOk && !t.isGoTask && t.goDispatcher == "" && t.goSourceDir == ""

mutual

/-- Serializable namespace (recursively). -/
def nsOk : Namespace → Bool
  | .mk _ ts vs nss => ts.all taskOk && vs.all varOk && nsOkList nss

/-- Serializable namespace list. -/
def nsOkList : List Namespace → Bool
  | [] => true
  | ns :: rest => nsOk ns && nsOkList rest

end

/-- Serializable file. -/
def qfOk (qf : QuakeFile) : Bool :=
  qf.tasks.all taskOk && nsOkList qf.namespaces && qf.vars.all varOk

/-- Elementwise decode of an elementwise encode. -/
theorem mapExcept_roundtrip {α γ : Type} (m : α → γ) (u : γ → Except String α)
    (l : List α) (h : ∀ x ∈ l, u (m x) = .ok x) :
    mapExcept u (l.map m) = .ok l := by
  induction l with
  | nil => rfl
  | cons a rest ih =>
    rw [List.map_cons, mapExcept, h a (by simp), ih (fun x hx => h x (by simp [hx]))]

/-- Tagged command elements round-trip (outside the expression
variant). -/
theorem rt_element (e : CommandElement) (h : elemOk e = true) :
    unmarshalCommandElement (marshalCommandElement e) = .ok e := by
  cases e with
  | stringElement v => rfl
  | backtickElement c => rfl
  | expressionElement ex => simp [elemOk] at h
  | variableElement n => rfl

/-- Commands round-trip when they hold no expression elements. -/
theorem rt_command (c : Command) (h : cmdOk c = true) :
    unmarshalCommand (marshalCommand c) = .ok c := by
  obtain ⟨elems, sil, cont⟩ := c
  have hmap : mapExcept unmarshalCommandElement (elems.map marshalCommandElement) =
      .ok elems := by
    refine mapExcept_roundtrip _ _ _ (fun x hx => rt_element x ?_)
    simp [cmdOk, List.all_eq_true] at h
    exact h x hx
  cases sil <;> cases cont <;>
    simp [marshalCommand, unmarshalCommand, decodeBoolField, lookupField, hmap]

/-- Variables round-trip when the value is a plain string. -/
theorem rt_variable (v : Variable) (h : varOk v = true) :
    unmarshalVariable (marshalVariable v) = .ok v := by
  obtain ⟨name, value, he, hc, hm⟩ := v
  cases value with
  | str s =>
    cases he <;> cases hc <;> cases hm <;>
      simp [marshalVariable, unmarshalVariable, marshalGoValue, unmarshalGoValue,
        decodeStringField, decodeBoolField, lookupField, asString]
  | expr e => simp [varOk] at h
  | backtickElem c => simp [varOk] at h
  | json j => simp [varOk] at h

/-- Strings in arrays round-trip. -/
theorem mapExcept_asString (l : List String) :
    mapExcept asString (l.map JsonVal.str) = .ok l :=
  mapExcept_roundtrip _ _ _ (fun x _ => rfl)

/-- Tasks round-trip when serializable. -/
theorem rt_task (t : Task) (h : taskOk t = true) :
    unmarshalTask (marshalTask t) = .ok t := by
  obtain ⟨name, desc, args, deps, cmds, goT, goD, goS⟩ := t
  simp only [taskOk, Bool.and_eq_true, beq_iff_eq, Bool.not_eq_true'] at h
  obtain ⟨⟨⟨hcmds, hgoT⟩, hgoD⟩, hgoS⟩ := h
  subst hgoT hgoD hgoS
  have hmap : mapExcept unmarshalCommand (cmds.map marshalCommand) = .ok cmds := by
    refine mapExcept_roundtrip _ _ _ (fun x hx => rt_command x ?_)
    simp [List.all_eq_true] at hcmds
    exact hcmds x hx
  by_cases hd : desc = "" <;>
  by_cases ha : args.isEmpty <;>
  by_cases hde : deps.isEmpty <;>
    (try (replace ha : args = [] := List.isEmpty_iff.mp ha; subst ha)) <;>
    (try (replace hde : deps = [] := List.isEmpty_iff.mp hde; subst hde)) <;>
    simp [marshalTask, unmarshalTask, decodeStringField, decodeStringListField,
      lookupField, asString, hmap, mapExcept_asString, *]

/-- Membership in a serializable namespace list. -/
theorem nsOkList_mem : ∀ {l : List Namespace} {x : Namespace},
    nsOkList l = true → x ∈ l → nsOk x = true := by
  intro l
  induction l with
  | nil => intro x _ hx; simp at hx
  | cons ns rest ih =>
    intro x hok hx
    rw [nsOkList, Bool.and_eq_true] at hok
    rcases List.mem_cons.mp hx with h | h
    · subst h; exact hok.1
    · exact ih hok.2 h

/-- Namespace arrays decode elementwise. -/
theorem unmarshalNamespaceList_roundtrip (l : List Namespace)
    (h : ∀ x ∈ l, unmarshalNamespace (marshalNamespace x) = .ok x) :
    unmarshalNamespaceList (marshalNamespaceList l) = .ok l := by
  induction l with
  | nil => rw [marshalNamespaceList, unmarshalNamespaceList]
  | cons ns rest ih =>
    rw [marshalNamespaceList, unmarshalNamespaceList, h ns (by simp),
      ih (fun x hx => h x (by simp [hx]))]

/-- Namespaces round-trip when serializable (strong induction on
size). -/
theorem rt_namespace_strong : ∀ (n : Nat) (ns : Namespace), sizeOf ns ≤ n →
    nsOk ns = true → unmarshalNamespace (marshalNamespace ns) = .ok ns := by
  intro n
  induction n using Nat.strong_induction_on with
  | _ n ih =>
    intro ns hsize hok
    obtain ⟨name, ts, vs, nss⟩ := ns
    simp only [nsOk, Bool.and_eq_true] at hok
    obtain ⟨⟨hts, hvs⟩, hnss⟩ := hok
    have htsmap : mapExcept unmarshalTask (ts.map marshalTask) = .ok ts := by
      refine mapExcept_roundtrip _ _ _ (fun x hx => rt_task x ?_)
      simp [List.all_eq_true] at hts
      exact hts x hx
    have hvsmap : mapExcept unmarshalVariable (vs.map marshalVariable) = .ok vs := by
      refine mapExcept_roundtrip _ _ _ (fun x hx => rt_variable x ?_)
      simp [List.all_eq_true] at hvs
      exact hvs x hx
    have hlist : unmarshalNamespaceList (marshalNamespaceList nss) = .ok nss := by
      refine unmarshalNamespaceList_roundtrip nss (fun x hx => ?_)
      have hsx : sizeOf x < n := by
        have h1 := List.sizeOf_lt_of_mem hx
        have h2 : sizeOf (Namespace.mk name ts vs nss) ≤ n := hsize
        simp at h2
        omega
      exact ih (sizeOf x) hsx x le_rfl (nsOkList_mem hnss hx)
    by_cases hts0 : ts.isEmpty <;>
    by_cases hvs0 : vs.isEmpty <;>
    by_cases hnss0 : nss.isEmpty <;>
      (try (replace hts0 : ts = [] := List.isEmpty_iff.mp hts0; subst hts0)) <;>
      (try (replace hvs0 : vs = [] := List.isEmpty_iff.mp hvs0; subst hvs0)) <;>
      (try (replace hnss0 : nss = [] := List.isEmpty_iff.mp hnss0;
            subst hnss0)) <;>
      simp [marshalNamespace, marshalNamespaceList, unmarshalNamespace,
        unmarshalNamespaceList, decodeStringField, lookupField, asString,
        htsmap, hvsmap, hlist, *]

/-- Namespaces round-trip when serializable. -/
theorem rt_namespace (ns : Namespace) (h : nsOk ns = true) :
    unmarshalNamespace (marshalNamespace ns) = .ok ns :=
  rt_namespace_strong (sizeOf ns) ns le_rfl h

/-- Files round-trip when serializable. -/
theorem rt_quakeFile (qf : QuakeFile) (h : qfOk qf = true) :
    unmarshalQuakeFile (marshalQuakeFile qf) = .ok qf := by
  obtain ⟨ts, nss, vs, fns⟩ := qf
  simp only [qfOk, Bool.and_eq_true] at h
  obtain ⟨⟨hts, hnss⟩, hvs⟩ := h
  have htsmap : mapExcept unmarshalTask (ts.map marshalTask) = .ok ts := by
    refine mapExcept_roundtrip _ _ _ (fun x hx => rt_task x ?_)
    simp [List.all_eq_true] at hts
    exact hts x hx
  have hvsmap : mapExcept unmarshalVariable (vs.map marshalVariable) = .ok vs := by
    refine mapExcept_roundtrip _ _ _ (fun x hx => rt_variable x ?_)
    simp [List.all_eq_true] at hvs
    exact hvs x hx
  have hlist : unmarshalNamespaceList (marshalNamespaceList nss) = .ok nss :=
    unmarshalNamespaceList_roundtrip nss
      (fun x hx => rt_namespace x (nsOkList_mem hnss hx))
  by_cases hnss0 : nss.isEmpty <;>
  by_cases hvs0 : vs.isEmpty <;>
  by_cases hfns : fns = "" <;>
    (try (replace hnss0 : nss = [] := List.isEmpty_iff.mp hnss0;
          subst hnss0)) <;>
    (try (replace hvs0 : vs = [] := List.isEmpty_iff.mp hvs0; subst hvs0)) <;>
    simp [marshalQuakeFile, marshalNamespaceList, unmarshalQuakeFile,
      unmarshalNamespaceList, unmarshalQuakeFile.finishQuakeFile,
      decodeStringField, lookupField, asString, htsmap, hvsmap, hlist, *]

/-- The C9 counterexample command: one expression element. -/
def cmdWithExpr : Command := ⟨[.expressionElement (.identifier "x")], false, false⟩

/-- The C9 counterexample variable: an expression value. -/
def varWithExpr : Variable := ⟨"v", .expr (.identifier "x"), true, false, false⟩

/-- What `varWithExpr` decodes back to: the tagged object as a generic
JSON value, not the `Expression` variant. -/
def varDecoded : Variable :=
  ⟨"v", .json (.obj [("type", .str "identifier"), ("name", .str "x")]),
   true, false, false⟩

/-- C9 is false as stated: a Command containing an ExpressionElement
marshals but fails to unmarshal (the `Expression` field is a non-empty
Go interface with no custom unmarshaler), and a Variable with an
Expression value unmarshals to a generic decoded map rather than a
structurally equal value. -/
theorem C9_counterexample_expression_roundtrip :
    unmarshalCommand (marshalCommand cmdWithExpr) =
      Except.error
        "json: cannot unmarshal object into Go struct field ExpressionElement.expression of type parser.Expression" ∧
    unmarshalVariable (marshalVariable varWithExpr) = Except.ok varDecoded ∧
    varDecoded ≠ varWithExpr := by
  refine ⟨rfl, rfl, fun h => ?_⟩
  exact GoValue.noConfusion (congrArg Variable.value h)

/-- C9 amended: serialize-then-deserialize yields a structurally equal
value for every file whose commands contain no ExpressionElement and
whose variable values are plain strings (the external-task metadata at
its zero value, as it is outside the serialized struct); list fields
that were empty are omitted and decode back to empty containers, never
to absent values. -/
theorem C9_amended_serialization_roundtrip :
    (∀ qf : QuakeFile, qfOk qf = true →
        unmarshalQuakeFile (marshalQuakeFile qf) = Except.ok qf) ∧
    unmarshalQuakeFile (JsonVal.obj [("tasks", .arr [])]) =
      Except.ok ⟨[], [], [], ""⟩ ∧
    unmarshalQuakeFile (JsonVal.obj []) = Except.ok ⟨[], [], [], ""⟩ :=
  ⟨rt_quakeFile, rfl, rfl⟩

/-- The C9 witness file: a task with arguments, dependencies and a
mixed command, a namespace with a task, a string variable and a file
namespace. -/
def qfC9 : QuakeFile :=
  ⟨[⟨"build", "builds things", ["target"], ["deps"],
     [⟨[.stringElement "make ", .variableElement "target",
        .backtickElement "date"], true, true⟩],
     false, "", ""⟩],
   [.mk "db" [⟨"migrate", "", [], [], [], false, "", ""⟩] [] []],
   [⟨"version", .str "1.0", false, false, false⟩],
   "myns"⟩

/-- Witness for the amended C9 at a concrete file. -/
theorem C9_amended_serialization_roundtrip_witness :
    unmarshalQuakeFile (marshalQuakeFile qfC9) = Except.ok qfC9 :=
  C9_amended_serialization_roundtrip.1 qfC9 (by decide)

end Quake
